import Mathlib

/-!
Shallow embedding of the violeta backend (FastAPI + SQLModel) core:
share-token access gate over documents, social counter ledger
(likes / comments / publication deletion) and the cursor pagination
engine, together with the credential and token service.

The persistence store is modelled as lists of row values; each request
handler is a total Lean function threading the database state and
returning `Except HErr` for the HTTPException paths.  An error result
carries the untouched database, mirroring the fact that every
`raise HTTPException` in the source happens before `session.commit()`.
-/

namespace Violeta

/-- Row identifiers: uuid4 values modelled as abstract naturals. -/
abbrev Id := Nat

/-- An HTTPException raised by a handler: status code and detail string. -/
structure HErr where
  status : Nat
  detail : String
deriving Repr, DecidableEq

deriving instance DecidableEq for Except

/-- Opaque JSON tree used for a document content blob
(`content: dict[str, Any]`, sa_column JSON).  Objects are encoded as
cons cells `entry key value rest` ending in `null`. -/
inductive Jdata where
  | null : Jdata
  | str : String → Jdata
  | num : Int → Jdata
  | entry : String → Jdata → Jdata → Jdata
deriving Repr, DecidableEq

/-- Row of the `documents` table (app/models/document.py). -/
structure Document where
  id : Id
  owner_id : Id
  title : String
  content : Jdata
  is_public : Bool
  share_token : Option String
  copied_from_id : Option Id
deriving Repr, DecidableEq

/-- The documents table. -/
structure DocDB where
  docs : List Document
deriving Repr, DecidableEq

/-- Python truthiness of an optional string: `not doc.share_token` is
true when the field is None or the empty string. -/
def strFalsy : Option String → Bool
  | none => true
  | some s => s = ""

/-- `session.get(Document, doc_id)`: primary-key lookup. -/
def getDoc (db : DocDB) (doc_id : Id) : Option Document :=
  db.docs.find? (fun d => d.id = doc_id)

/-- Replace the row with the given primary key (commit of a mutated ORM row). -/
def putDoc (db : DocDB) (doc_id : Id) (d : Document) : DocDB :=
  ⟨db.docs.map (fun x => if x.id = doc_id then d else x)⟩

/-- Response of the share endpoint. -/
structure ShareResponse where
  share_token : String
  share_url : String
deriving Repr, DecidableEq

def notFoundDoc : HErr := ⟨404, "Document not found"⟩
def notFoundShared : HErr := ⟨404, "Shared document not found"⟩

/-- POST /api/documents/{doc_id}/share (app/routers/sharing.py).
`fresh` stands for the `secrets.token_hex(16)` draw used when the
document has no token yet. -/
def share_document (db : DocDB) (doc_id : Id) (userId : Id)
    (fresh : String) : Except HErr ShareResponse × DocDB :=
  match getDoc db doc_id with
  | none => (.error notFoundDoc, db)
  | some doc =>
    if doc.owner_id ≠ userId then (.error notFoundDoc, db)
    else
      let tok : String := if strFalsy doc.share_token then fresh
        else doc.share_token.getD fresh
      let doc' : Document := { doc with share_token := some tok, is_public := true }
      (.ok ⟨tok, "/shared/" ++ tok⟩, putDoc db doc_id doc')

/-- DELETE /api/documents/{doc_id}/share. -/
def revoke_share (db : DocDB) (doc_id : Id) (userId : Id) :
    Except HErr Unit × DocDB :=
  match getDoc db doc_id with
  | none => (.error notFoundDoc, db)
  | some doc =>
    if doc.owner_id ≠ userId then (.error notFoundDoc, db)
    else
      let doc' : Document := { doc with share_token := none, is_public := false }
      (.ok (), putDoc db doc_id doc')

/-- GET /api/shared/{share_token}: the WHERE clause demands both the
token equality and `is_public == True` in the same query. -/
def view_shared (db : DocDB) (tok : String) : Except HErr Document :=
  match db.docs.find? (fun d => d.share_token = some tok ∧ d.is_public = true) with
  | none => .error notFoundShared
  | some doc => .ok doc

/-- POST /api/shared/{share_token}/copy.  `freshId` stands for the
uuid4 primary key the insert generates; the new row takes the model
defaults `is_public=False`, `share_token=None`. -/
def copy_shared (db : DocDB) (tok : String) (userId : Id)
    (freshId : Id) : Except HErr Document × DocDB :=
  match db.docs.find? (fun d => d.share_token = some tok ∧ d.is_public = true) with
  | none => (.error notFoundShared, db)
  | some original =>
    let copy : Document :=
      { id := freshId
        owner_id := userId
        title := "Copy of " ++ original.title
        content := original.content
        is_public := false
        share_token := none
        copied_from_id := some original.id }
    (.ok copy, ⟨db.docs ++ [copy]⟩)

/-- POST /api/documents/ (app/routers/documents.py): new row with the
model defaults for `is_public` and `share_token`. -/
def create_document (db : DocDB) (userId : Id) (title : String)
    (content : Jdata) (freshId : Id) : Except HErr Document × DocDB :=
  let doc : Document :=
    { id := freshId
      owner_id := userId
      title := title
      content := content
      is_public := false
      share_token := none
      copied_from_id := none }
  (.ok doc, ⟨db.docs ++ [doc]⟩)

/-- PUT /api/documents/{doc_id}: optional title and content patch. -/
def update_document (db : DocDB) (doc_id : Id) (userId : Id)
    (title : Option String) (content : Option Jdata) :
    Except HErr Document × DocDB :=
  match getDoc db doc_id with
  | none => (.error notFoundDoc, db)
  | some doc =>
    if doc.owner_id ≠ userId then (.error notFoundDoc, db)
    else
      let doc' : Document :=
        { doc with
          title := title.getD doc.title
          content := content.getD doc.content }
      (.ok doc', putDoc db doc_id doc')

/-- DELETE /api/documents/{doc_id}. -/
def delete_document (db : DocDB) (doc_id : Id) (userId : Id) :
    Except HErr Unit × DocDB :=
  match getDoc db doc_id with
  | none => (.error notFoundDoc, db)
  | some doc =>
    if doc.owner_id ≠ userId then (.error notFoundDoc, db)
    else (.ok (), ⟨db.docs.filter (fun x => x.id ≠ doc_id)⟩)

/-- Publication type enum (app/models/publication.py). -/
inductive PubType where
  | article
  | exercise_list
  | study_material
  | proof
deriving Repr, DecidableEq

/-- Row of the `publications` table (app/models/publication.py).
`created_at` is a timestamp modelled as a natural; counters are Python
ints, modelled as signed. -/
structure Publication where
  id : Id
  author_id : Id
  document_id : Option Id
  title : String
  abstract : Option String
  type : PubType
  share_token : String
  pdf_path : String
  thumbnail_path : String
  like_count : Int
  comment_count : Int
  created_at : Nat
deriving Repr, DecidableEq

/-- Row of the `users` table (only the fields the embedded handlers read). -/
structure UserRow where
  id : Id
  name : String
deriving Repr, DecidableEq

/-- Row of the `follows` table. -/
structure Follow where
  id : Id
  follower_id : Id
  following_id : Id
deriving Repr, DecidableEq

/-- Row of the `publication_likes` table. -/
structure PublicationLike where
  id : Id
  publication_id : Id
  user_id : Id
deriving Repr, DecidableEq

/-- Row of the `publication_comments` table. -/
structure PublicationComment where
  id : Id
  publication_id : Id
  author_id : Id
  parent_id : Option Id
  content : String
  created_at : Nat
deriving Repr, DecidableEq

/-- The social tables plus the upload directory, modelled as the set of
paths present on disk. -/
structure SocialDB where
  users : List UserRow
  follows : List Follow
  publications : List Publication
  likes : List PublicationLike
  comments : List PublicationComment
  files : List String
deriving Repr, DecidableEq

/-- `session.get(Publication, pub_id)`. -/
def getPub (db : SocialDB) (pub_id : Id) : Option Publication :=
  db.publications.find? (fun p => p.id = pub_id)

/-- Commit of a mutated publication row. -/
def putPub (db : SocialDB) (pub_id : Id) (p : Publication) : SocialDB :=
  { db with publications :=
      db.publications.map (fun x => if x.id = pub_id then p else x) }

def notFoundPub : HErr := ⟨404, "Publication not found"⟩
def notFoundComment : HErr := ⟨404, "Comment not found"⟩
def notFoundParent : HErr := ⟨404, "Parent comment not found"⟩
def notAuthorized : HErr := ⟨403, "Not authorized"⟩
def replyDepthErr : HErr :=
  ⟨400, "Cannot reply to a reply. Only one level of nesting is allowed."⟩

/-- Body returned by the like toggle. -/
structure LikeResponse where
  liked : Bool
  like_count : Int
deriving Repr, DecidableEq

/-- POST /api/publications/{pub_id}/like (app/routers/publications.py).
`freshId` stands for the uuid4 primary key drawn for a new like row. -/
def toggle_like (db : SocialDB) (pub_id : Id) (userId : Id)
    (freshId : Id) : Except HErr LikeResponse × SocialDB :=
  match getPub db pub_id with
  | none => (.error notFoundPub, db)
  | some pub =>
    match db.likes.find?
        (fun l => l.publication_id = pub_id ∧ l.user_id = userId) with
    | some existing =>
      let pub' : Publication := { pub with like_count := max 0 (pub.like_count - 1) }
      let db' : SocialDB :=
        putPub { db with likes := db.likes.filter (fun l => l.id ≠ existing.id) }
          pub_id pub'
      (.ok ⟨false, pub'.like_count⟩, db')
    | none =>
      let pub' : Publication := { pub with like_count := pub.like_count + 1 }
      let db' : SocialDB :=
        putPub { db with likes := db.likes ++ [⟨freshId, pub_id, userId⟩] }
          pub_id pub'
      (.ok ⟨true, pub'.like_count⟩, db')

/-- POST /api/publications/{pub_id}/comments (app/routers/comments.py).
`freshId` is the uuid4 primary key of the inserted comment, `now` its
`created_at` default. -/
def create_comment (db : SocialDB) (pub_id : Id) (authorId : Id)
    (parent_id : Option Id) (content : String) (freshId : Id)
    (now : Nat) : Except HErr PublicationComment × SocialDB :=
  match getPub db pub_id with
  | none => (.error notFoundPub, db)
  | some pub =>
    let parentCheck : Except HErr Unit :=
      match parent_id with
      | none => .ok ()
      | some pid =>
        match db.comments.find? (fun c => c.id = pid) with
        | none => .error notFoundParent
        | some parent =>
          if parent.publication_id ≠ pub_id then .error notFoundParent
          else if parent.parent_id ≠ none then .error replyDepthErr
          else .ok ()
    match parentCheck with
    | .error e => (.error e, db)
    | .ok () =>
      let comment : PublicationComment :=
        ⟨freshId, pub_id, authorId, parent_id, content, now⟩
      let pub' : Publication := { pub with comment_count := pub.comment_count + 1 }
      let db' : SocialDB :=
        putPub { db with comments := db.comments ++ [comment] } pub_id pub'
      (.ok comment, db')

/-- DELETE /api/comments/{comment_id}: author-only; the publication
lookup is allowed to fail, in which case the counter update is skipped
and the comment is still deleted. -/
def delete_comment (db : SocialDB) (comment_id : Id) (userId : Id) :
    Except HErr Unit × SocialDB :=
  match db.comments.find? (fun c => c.id = comment_id) with
  | none => (.error notFoundComment, db)
  | some comment =>
    if comment.author_id ≠ userId then (.error notAuthorized, db)
    else
      let db1 : SocialDB :=
        match getPub db comment.publication_id with
        | some pub =>
          putPub db comment.publication_id
            { pub with comment_count := max 0 (pub.comment_count - 1) }
        | none => db
      (.ok (), { db1 with comments := db1.comments.filter (fun c => c.id ≠ comment_id) })

/-- Path of the stored PDF for a publication id (app/services/thumbnail.py). -/
def pdfPathOf (pid : Id) : String :=
  "uploads/publications/" ++ toString pid ++ ".pdf"

/-- Path of the stored thumbnail for a publication id. -/
def thumbPathOf (pid : Id) : String :=
  "uploads/publications/" ++ toString pid ++ "_thumb.png"

/-- `delete_publication_files`: unlink each of the two paths if present. -/
def delete_publication_files (files : List String) (pid : Id) : List String :=
  (files.filter (fun p => p ≠ pdfPathOf pid)).filter (fun p => p ≠ thumbPathOf pid)

/-- DELETE /api/publications/{pub_id}: remove stored files, then the
row.  `session.delete(pub)` deletes only the publications row. -/
def delete_publication (db : SocialDB) (pub_id : Id) (userId : Id) :
    Except HErr Unit × SocialDB :=
  match getPub db pub_id with
  | none => (.error notFoundPub, db)
  | some pub =>
    if pub.author_id ≠ userId then (.error notAuthorized, db)
    else
      (.ok (),
       { db with
         files := delete_publication_files db.files pub.id
         publications := db.publications.filter (fun p => p.id ≠ pub_id) })

/-- Insertion of one element into a list according to a Boolean
comparator; used to give the ORDER BY clause a concrete meaning. -/
def orderedInsertB (le : α → α → Bool) (a : α) : List α → List α
  | [] => [a]
  | b :: l => if le a b then a :: b :: l else b :: orderedInsertB le a l

/-- Insertion sort by a Boolean comparator: the meaning of
`ORDER BY column` for a result set modelled as a list of rows.  Under
the pairwise-distinct-timestamp hypothesis of the pagination claims the
sorted result is unique, so any correct sort embeds the clause. -/
def insertionSortB (le : α → α → Bool) : List α → List α
  | [] => []
  | b :: l => orderedInsertB le b (insertionSortB le l)

/-- Comparator for `ORDER BY created_at DESC` over joined
(publication, author name) rows. -/
def pubDescLe (a b : Publication × String) : Bool :=
  b.1.created_at ≤ a.1.created_at

/-- Comparator for `ORDER BY created_at ASC` over joined
(comment, author name) rows. -/
def commentAscLe (a b : PublicationComment × String) : Bool :=
  a.1.created_at ≤ b.1.created_at

/-- Inner `JOIN users ON author_id = users.id`, annotating each row
with the author name. -/
def joinAuthors (pubs : List Publication) (users : List UserRow) :
    List (Publication × String) :=
  pubs.filterMap (fun p =>
    (users.find? (fun u => u.id = p.author_id)).map (fun u => (p, u.name)))

/-- Same join for comment rows. -/
def joinCommentAuthors (cs : List PublicationComment) (users : List UserRow) :
    List (PublicationComment × String) :=
  cs.filterMap (fun c =>
    (users.find? (fun u => u.id = c.author_id)).map (fun u => (c, u.name)))

/-- Row shape returned by the feed endpoint. -/
structure PubResponse where
  id : Id
  author_id : Id
  author_name : String
  document_id : Option Id
  title : String
  abstract : Option String
  type : PubType
  share_token : String
  like_count : Int
  comment_count : Int
  created_at : Nat
  liked_by_me : Bool
deriving Repr, DecidableEq

/-- `_pub_response` (app/routers/publications.py). -/
def pub_response (p : Publication) (author_name : String) (liked : Bool) :
    PubResponse :=
  ⟨p.id, p.author_id, author_name, p.document_id, p.title, p.abstract,
   p.type, p.share_token, p.like_count, p.comment_count, p.created_at, liked⟩

/-- The batch membership query for `liked_by_me`: ids of the returned
page liked by the requesting user. -/
def likedSet (db : SocialDB) (userId : Id) (pub_ids : List Id) : List Id :=
  (db.likes.filter
    (fun l => l.user_id = userId ∧ l.publication_id ∈ pub_ids)).map
    (fun l => l.publication_id)

/-- `select(Follow.following_id).where(Follow.follower_id == user.id)`. -/
def following_ids (db : SocialDB) (userId : Id) : List Id :=
  (db.follows.filter (fun f => f.follower_id = userId)).map
    (fun f => f.following_id)

/-- The feed row set before ORDER BY/LIMIT: publications by followed
authors joined with the author name. -/
def feedBase (db : SocialDB) (userId : Id) : List (Publication × String) :=
  joinAuthors
    (db.publications.filter (fun p => p.author_id ∈ following_ids db userId))
    db.users

/-- GET /api/publications/feed: follow filter, author join,
`created_at < cursor` when a cursor is given, ORDER BY created_at DESC,
LIMIT, then the liked-by-me annotation. -/
def feed (db : SocialDB) (userId : Id) (cursor : Option Nat)
    (limit : Nat) : List PubResponse :=
  if (following_ids db userId).isEmpty then []
  else
    let filtered := match cursor with
      | none => feedBase db userId
      | some c => (feedBase db userId).filter (fun r => r.1.created_at < c)
    let rows := (insertionSortB pubDescLe filtered).take limit
    let pub_ids := rows.map (fun r => r.1.id)
    let lset := likedSet db userId pub_ids
    rows.map (fun r => pub_response r.1 r.2 (r.1.id ∈ lset))

/-- The explore row set before ORDER BY/LIMIT: all publications joined
with the author name. -/
def exploreBase (db : SocialDB) : List (Publication × String) :=
  joinAuthors db.publications db.users

/-- GET /api/publications/explore (publications.py lines 132-169): like
the feed but over all publications — no follow pre-filter; same author
join, `created_at < cursor`, ORDER BY created_at DESC, LIMIT, and
liked-by-me annotation. -/
def explore (db : SocialDB) (userId : Id) (cursor : Option Nat)
    (limit : Nat) : List PubResponse :=
  let filtered := match cursor with
    | none => exploreBase db
    | some c => (exploreBase db).filter (fun r => r.1.created_at < c)
  let rows := (insertionSortB pubDescLe filtered).take limit
  let pub_ids := rows.map (fun r => r.1.id)
  let lset := likedSet db userId pub_ids
  rows.map (fun r => pub_response r.1 r.2 (r.1.id ∈ lset))

/-- Row shape returned by the comment list endpoint. -/
structure CommentResponse where
  id : Id
  publication_id : Id
  author_id : Id
  author_name : String
  parent_id : Option Id
  content : String
  created_at : Nat
deriving Repr, DecidableEq

def comment_response (c : PublicationComment) (author_name : String) :
    CommentResponse :=
  ⟨c.id, c.publication_id, c.author_id, author_name, c.parent_id,
   c.content, c.created_at⟩

/-- The comment row set before ORDER BY/LIMIT: the publication's
comments joined with the author name. -/
def commentBase (db : SocialDB) (pub_id : Id) :
    List (PublicationComment × String) :=
  joinCommentAuthors
    (db.comments.filter (fun c => c.publication_id = pub_id)) db.users

/-- GET /api/publications/{pub_id}/comments: publication filter, author
join, `created_at > cursor` when a cursor is given, ORDER BY created_at
ASC, LIMIT. -/
def list_comments (db : SocialDB) (pub_id : Id) (cursor : Option Nat)
    (limit : Nat) : List CommentResponse :=
  let filtered := match cursor with
    | none => commentBase db pub_id
    | some c => (commentBase db pub_id).filter (fun r => c < r.1.created_at)
  let rows := (insertionSortB commentAscLe filtered).take limit
  rows.map (fun r => comment_response r.1 r.2)

/-!  Credential and token service (app/utils/security.py, deps.py,
routers/auth.py).  The JWT primitive is opaque: a well-formed token is
a claim set together with the secret it was signed with; anything else
is malformed.  `jwt.decode` verifies the signature and the `exp` claim
and raises JWTError otherwise; `decode_token` catches that and returns
the empty dict. -/

/-- Claim set carried by a token issued by this service. -/
structure Claims where
  sub : Option String
  type : Option String
  exp : Nat
deriving Repr, DecidableEq

/-- A presented bearer token: either signed claims or malformed bytes. -/
inductive Token where
  | signed : Claims → String → Token
  | malformed : String → Token
deriving Repr, DecidableEq

/-- The decoded payload dict: possibly empty. -/
structure Payload where
  sub : Option String
  type : Option String
deriving Repr, DecidableEq

/-- The `{}` a failed decode yields. -/
def emptyPayload : Payload := ⟨none, none⟩

/-- `create_access_token(subject)` at time `now`. -/
def create_access_token (secret subject : String) (now : Nat) : Token :=
  .signed ⟨some subject, some "access", now + 15 * 60⟩ secret

/-- `create_refresh_token(subject)` at time `now`. -/
def create_refresh_token (secret subject : String) (now : Nat) : Token :=
  .signed ⟨some subject, some "refresh", now + 7 * 24 * 60 * 60⟩ secret

/-- `decode_token`: total — signature or expiry failure yields `{}`,
never an exception. -/
def decode_token (secret : String) (now : Nat) : Token → Payload
  | .signed c s => if s = secret ∧ now < c.exp then ⟨c.sub, c.type⟩ else emptyPayload
  | .malformed _ => emptyPayload

/-- Python truthiness of `payload.get("sub")`. -/
def subFalsy : Option String → Bool
  | none => true
  | some s => s = ""

def invalidToken : HErr := ⟨401, "Invalid token"⟩
def userNotFound : HErr := ⟨401, "User not found"⟩
def invalidRefresh : HErr := ⟨401, "Invalid refresh token"⟩
def noRefreshCookie : HErr := ⟨401, "No refresh token"⟩

/-- `get_current_user` (app/utils/deps.py): requires a falsy-free `sub`
and `type == "access"`, then resolves the user row.  User ids are
modelled by their uuid string form. -/
def get_current_user (secret : String) (now : Nat) (users : List String)
    (tok : Token) : Except HErr String :=
  let payload := decode_token secret now tok
  if subFalsy payload.sub ∨ payload.type ≠ some "access" then
    .error invalidToken
  else
    match payload.sub with
    | some uid => if uid ∈ users then .ok uid else .error userNotFound
    | none => .error invalidToken

/-- POST /api/auth/refresh (app/routers/auth.py): reads the cookie,
requires `type == "refresh"`, then issues a fresh access token.  The
unchecked `payload["sub"]` dict access is an unhandled fault (500)
when a signed refresh-typed token carries no sub. -/
def refresh (secret : String) (now : Nat) (users : List String)
    (cookie : Option Token) : Except HErr Token :=
  match cookie with
  | none => .error noRefreshCookie
  | some tok =>
    let payload := decode_token secret now tok
    if payload.type ≠ some "refresh" then .error invalidRefresh
    else
      match payload.sub with
      | none => .error ⟨500, "KeyError"⟩
      | some uid =>
        if uid ∈ users then .ok (create_access_token secret uid now)
        else .error userNotFound

/-!  Helper lemmas about the row-replacement and lookup primitives. -/

/-- A member of a map-replace list is the replacement or an old row. -/
theorem mem_map_replace {α : Type} {l : List α} {p : α → Prop} [DecidablePred p]
    {d' x : α} (h : x ∈ l.map (fun y => if p y then d' else y)) :
    x = d' ∨ x ∈ l := by
  obtain ⟨y, hy, hxy⟩ := List.mem_map.mp h
  by_cases hp : p y
  · rw [if_pos hp] at hxy; exact Or.inl hxy.symm
  · rw [if_neg hp] at hxy; exact Or.inr (hxy ▸ hy)

/-- Mapping a function that fixes every member is the identity. -/
theorem map_eq_self_of {α : Type} {l : List α} {f : α → α}
    (h : ∀ x ∈ l, f x = x) : l.map f = l := by
  induction l with
  | nil => rfl
  | cons a t ih =>
    simp only [List.map_cons, h a (List.mem_cons_self a t),
      ih (fun x hx => h x (List.mem_cons_of_mem a hx))]

/-- The invariant of claim C2: a document's `share_token` is non-null
exactly when its `is_public` flag is set. -/
def shareInv (d : Document) : Prop := d.share_token.isSome ↔ d.is_public = true

instance (d : Document) : Decidable (shareInv d) := by
  unfold shareInv; infer_instance

/-- C2: every document operation preserves (and the share / revoke /
create / copy operations establish) the invariant that `share_token`
is non-null iff `is_public` is true. -/
theorem document_share_invariant_preserved
    (db : DocDB) (hinv : ∀ d ∈ db.docs, shareInv d) :
    (∀ uid title c fid, ∀ d ∈ ((create_document db uid title c fid).2).docs, shareInv d)
    ∧ (∀ did uid fresh, ∀ d ∈ ((share_document db did uid fresh).2).docs, shareInv d)
    ∧ (∀ did uid, ∀ d ∈ ((revoke_share db did uid).2).docs, shareInv d)
    ∧ (∀ tok uid fid, ∀ d ∈ ((copy_shared db tok uid fid).2).docs, shareInv d)
    ∧ (∀ did uid t c, ∀ d ∈ ((update_document db did uid t c).2).docs, shareInv d)
    ∧ (∀ did uid, ∀ d ∈ ((delete_document db did uid).2).docs, shareInv d) := by
  refine ⟨?_, ?_, ?_, ?_, ?_, ?_⟩
  · intro uid title c fid d hd
    simp only [create_document] at hd
    rcases List.mem_append.mp hd with h | h
    · exact hinv d h
    · simp at h; subst h; simp [shareInv]
  · intro did uid fresh d hd
    cases hfind : getDoc db did with
    | none => simp only [share_document, hfind] at hd; exact hinv d hd
    | some doc =>
      simp only [share_document, hfind] at hd
      by_cases hown : doc.owner_id ≠ uid
      · rw [if_pos hown] at hd; exact hinv d hd
      · rw [if_neg hown] at hd
        simp only [putDoc] at hd
        rcases mem_map_replace hd with h | h
        · subst h; simp [shareInv]
        · exact hinv d h
  · intro did uid d hd
    cases hfind : getDoc db did with
    | none => simp only [revoke_share, hfind] at hd; exact hinv d hd
    | some doc =>
      simp only [revoke_share, hfind] at hd
      by_cases hown : doc.owner_id ≠ uid
      · rw [if_pos hown] at hd; exact hinv d hd
      · rw [if_neg hown] at hd
        simp only [putDoc] at hd
        rcases mem_map_replace hd with h | h
        · subst h; simp [shareInv]
        · exact hinv d h
  · intro tok uid fid d hd
    cases hfind : db.docs.find? (fun d => d.share_token = some tok ∧ d.is_public = true) with
    | none => simp only [copy_shared, hfind] at hd; exact hinv d hd
    | some orig =>
      simp only [copy_shared, hfind] at hd
      rcases List.mem_append.mp hd with h | h
      · exact hinv d h
      · simp at h; subst h; simp [shareInv]
  · intro did uid t c d hd
    cases hfind : getDoc db did with
    | none => simp only [update_document, hfind] at hd; exact hinv d hd
    | some doc =>
      simp only [update_document, hfind] at hd
      by_cases hown : doc.owner_id ≠ uid
      · rw [if_pos hown] at hd; exact hinv d hd
      · rw [if_neg hown] at hd
        simp only [putDoc] at hd
        rcases mem_map_replace hd with h | h
        · subst h
          have hmem : doc ∈ db.docs := List.mem_of_find?_eq_some hfind
          have := hinv doc hmem
          simpa [shareInv] using this
        · exact hinv d h
  · intro did uid d hd
    cases hfind : getDoc db did with
    | none => simp only [delete_document, hfind] at hd; exact hinv d hd
    | some doc =>
      simp only [delete_document, hfind] at hd
      by_cases hown : doc.owner_id ≠ uid
      · rw [if_pos hown] at hd; exact hinv d hd
      · rw [if_neg hown] at hd
        exact hinv d (List.mem_of_mem_filter hd)

/-- Witness for C2 at a concrete store. -/
theorem document_share_invariant_preserved_witness :
    (∀ d ∈ (DocDB.mk [⟨1, 7, "T", Jdata.null, true, some "abc", none⟩]).docs, shareInv d)
    ∧ (∀ d ∈ ((share_document
        (DocDB.mk [⟨1, 7, "T", Jdata.null, true, some "abc", none⟩]) 1 7 "ff").2).docs,
        shareInv d) :=
  ⟨by decide,
   (document_share_invariant_preserved _ (by decide)).2.1 1 7 "ff"⟩

/-- Replacing the row found by a primary-key scan makes the scan return
the replacement. -/
theorem find?_id_replace_pub (l : List Publication) (pid : Id)
    (p q : Publication) (hp : p.id = pid)
    (hq : l.find? (fun x => x.id = pid) = some q) :
    (l.map (fun x => if x.id = pid then p else x)).find?
      (fun x => x.id = pid) = some p := by
  induction l with
  | nil => simp at hq
  | cons a t ih =>
    by_cases ha : a.id = pid
    · simp only [List.map_cons, if_pos ha]
      exact List.find?_cons_of_pos _ (by simp [hp])
    · simp only [List.map_cons, if_neg ha]
      rw [List.find?_cons_of_neg _ (by simp [ha])]
      rw [List.find?_cons_of_neg _ (by simp [ha])] at hq
      exact ih hq

/-- C1: toggling a like twice from the not-liked state returns
`liked=true, count+1` then `liked=false` with the original count and
restores the whole store; and any toggle preserves nonnegativity of
every like counter. -/
theorem toggle_like_double_and_nonneg :
    (∀ (db : SocialDB) (pid uid fid fid2 : Id) (pub : Publication),
      getPub db pid = some pub →
      db.likes.find? (fun l => l.publication_id = pid ∧ l.user_id = uid) = none →
      (∀ l ∈ db.likes, l.id ≠ fid) →
      (db.publications.map (fun p => p.id)).Nodup →
      0 ≤ pub.like_count →
      (toggle_like db pid uid fid).1 = .ok ⟨true, pub.like_count + 1⟩ ∧
      (toggle_like (toggle_like db pid uid fid).2 pid uid fid2).1
        = .ok ⟨false, pub.like_count⟩ ∧
      (toggle_like (toggle_like db pid uid fid).2 pid uid fid2).2 = db) ∧
    (∀ (db : SocialDB) (pid uid fid : Id),
      (∀ p ∈ db.publications, 0 ≤ p.like_count) →
      ∀ p ∈ (toggle_like db pid uid fid).2.publications, 0 ≤ p.like_count) := by
  constructor
  · intro db pid uid fid fid2 pub hpub hnone hfid hnodup hc
    have hpid : pub.id = pid := by simpa using List.find?_some hpub
    have hid1 : ({ pub with like_count := pub.like_count + 1 } : Publication).id = pid := hpid
    have hr1 : toggle_like db pid uid fid =
        (.ok ⟨true, pub.like_count + 1⟩,
         putPub { db with likes := db.likes ++ [⟨fid, pid, uid⟩] } pid
           { pub with like_count := pub.like_count + 1 }) := by
      simp only [toggle_like, hpub, hnone]
    rw [hr1]
    refine ⟨rfl, ?_⟩
    have hget1 : getPub
        (putPub { db with likes := db.likes ++ [⟨fid, pid, uid⟩] } pid
          { pub with like_count := pub.like_count + 1 }) pid
        = some { pub with like_count := pub.like_count + 1 } := by
      unfold getPub putPub
      exact find?_id_replace_pub db.publications pid _ pub hid1 hpub
    have hfind1 : (putPub { db with likes := db.likes ++ [⟨fid, pid, uid⟩] } pid
          { pub with like_count := pub.like_count + 1 }).likes.find?
        (fun l => l.publication_id = pid ∧ l.user_id = uid)
        = some ⟨fid, pid, uid⟩ := by
      simp only [putPub]
      rw [List.find?_append, hnone]
      simp
    have hr2 : toggle_like
        (putPub { db with likes := db.likes ++ [⟨fid, pid, uid⟩] } pid
          { pub with like_count := pub.like_count + 1 }) pid uid fid2 =
        (.ok ⟨false, max 0 (pub.like_count + 1 - 1)⟩,
         putPub { (putPub { db with likes := db.likes ++ [⟨fid, pid, uid⟩] } pid
            { pub with like_count := pub.like_count + 1 }) with
            likes := (putPub { db with likes := db.likes ++ [⟨fid, pid, uid⟩] } pid
              { pub with like_count := pub.like_count + 1 }).likes.filter
                (fun l => l.id ≠ fid) } pid
           { pub with like_count := max 0 (pub.like_count + 1 - 1) }) := by
      simp only [toggle_like, hget1, hfind1]
    rw [hr2]
    have hcancel : pub.like_count + 1 - 1 = pub.like_count := by omega
    have hcount : max 0 (pub.like_count + 1 - 1) = pub.like_count := by
      rw [hcancel]; exact max_eq_right hc
    constructor
    · rw [hcount]
    · show putPub _ pid { pub with like_count := max 0 (pub.like_count + 1 - 1) } = db
      rw [hcount]
      have hlikes1 : (putPub { db with likes := db.likes ++ [⟨fid, pid, uid⟩] } pid
            { pub with like_count := pub.like_count + 1 }).likes.filter
              (fun l => l.id ≠ fid) = db.likes := by
        simp only [putPub]
        rw [List.filter_append]
        have h1 : db.likes.filter (fun l => decide (l.id ≠ fid)) = db.likes :=
          List.filter_eq_self.mpr (fun a ha => by simpa using hfid a ha)
        rw [h1]
        simp
      have heta : db = ⟨db.users, db.follows, db.publications, db.likes,
          db.comments, db.files⟩ := rfl
      rw [heta]
      simp only [putPub, SocialDB.mk.injEq, true_and, and_true]
      refine ⟨?_, ?_⟩
      · rw [List.map_map]
        apply map_eq_self_of
        intro x hx
        simp only [Function.comp_apply]
        by_cases hxp : x.id = pid
        · have hxpub : x = pub :=
            List.inj_on_of_nodup_map hnodup hx
              (List.mem_of_find?_eq_some hpub) (by simp [hxp, hpid])
          rw [if_pos hxp, if_pos hid1, hxpub]
        · rw [if_neg hxp, if_neg hxp]
      · simpa only [putPub] using hlikes1
  · intro db pid uid fid hall p hp
    unfold toggle_like at hp
    cases hpub : getPub db pid with
    | none => rw [hpub] at hp; exact hall p hp
    | some pub =>
      rw [hpub] at hp
      cases hfind : db.likes.find?
          (fun l => l.publication_id = pid ∧ l.user_id = uid) with
      | some existing =>
        rw [hfind] at hp
        simp only [putPub] at hp
        rcases mem_map_replace hp with h | h
        · subst h; simp only []; exact le_max_left 0 _
        · exact hall p h
      | none =>
        rw [hfind] at hp
        simp only [putPub] at hp
        rcases mem_map_replace hp with h | h
        · subst h
          have := hall pub (List.mem_of_find?_eq_some hpub)
          simp only []
          omega
        · exact hall p h

/-- Witness for C1: one publication, like count 0, user 5 toggling twice. -/
theorem toggle_like_double_and_nonneg_witness :
    (toggle_like (toggle_like
        ⟨[], [], [⟨1, 9, none, "t", none, .article, "tk", "p", "q", 0, 0, 10⟩],
          [], [], []⟩ 1 5 100).2 1 5 101).1 = .ok ⟨false, 0⟩ ∧
    (toggle_like (toggle_like
        ⟨[], [], [⟨1, 9, none, "t", none, .article, "tk", "p", "q", 0, 0, 10⟩],
          [], [], []⟩ 1 5 100).2 1 5 101).2
      = ⟨[], [], [⟨1, 9, none, "t", none, .article, "tk", "p", "q", 0, 0, 10⟩],
          [], [], []⟩ := by
  have h := toggle_like_double_and_nonneg.1
    ⟨[], [], [⟨1, 9, none, "t", none, .article, "tk", "p", "q", 0, 0, 10⟩],
      [], [], []⟩ 1 5 100 101
    ⟨1, 9, none, "t", none, .article, "tk", "p", "q", 0, 0, 10⟩
    (by decide) (by decide) (by decide) (by decide) (by decide)
  exact ⟨h.2.1, h.2.2⟩

/-- C9: only the author may delete a comment; deletion removes exactly
that row, leaves every other comment (in particular replies, with their
`parent_id`) untouched, and decrements the publication's
`comment_count` by one, floored at zero. -/
theorem delete_comment_author_only_frame :
    ∀ (db : SocialDB) (cid uid : Id) (c : PublicationComment),
      db.comments.find? (fun x => x.id = cid) = some c →
      ((c.author_id ≠ uid →
        delete_comment db cid uid = (.error notAuthorized, db)
        ∧ notAuthorized.status = 403)
      ∧ (c.author_id = uid →
        (delete_comment db cid uid).1 = .ok ()
        ∧ (delete_comment db cid uid).2.comments
            = db.comments.filter (fun x => x.id ≠ cid)
        ∧ (∀ r ∈ db.comments, r.id ≠ cid →
            r ∈ (delete_comment db cid uid).2.comments)
        ∧ (∀ pub, getPub db c.publication_id = some pub →
            getPub (delete_comment db cid uid).2 c.publication_id
              = some { pub with comment_count := max 0 (pub.comment_count - 1) })
        ∧ (delete_comment db cid uid).2.likes = db.likes)) := by
  intro db cid uid c hfind
  constructor
  · intro hne2
    simp only [delete_comment, hfind]
    rw [if_pos hne2]
    exact ⟨rfl, rfl⟩
  · intro heq
    have hne : ¬ c.author_id ≠ uid := by simp [heq]
    cases hpub : getPub db c.publication_id with
    | none =>
      have hred : delete_comment db cid uid =
          (.ok (), { db with comments := db.comments.filter (fun x => x.id ≠ cid) }) := by
        simp only [delete_comment, hfind, hpub]
        rw [if_neg hne]
      rw [hred]
      refine ⟨rfl, rfl, ?_, ?_, rfl⟩
      · intro r hr hrid
        exact List.mem_filter.mpr ⟨hr, by simpa using hrid⟩
      · intro pub hpub2
        exact Option.noConfusion hpub2
    | some pub =>
      have hred : delete_comment db cid uid =
          (.ok (), { (putPub db c.publication_id
              { pub with comment_count := max 0 (pub.comment_count - 1) }) with
            comments := (putPub db c.publication_id
              { pub with comment_count := max 0 (pub.comment_count - 1) }).comments.filter
                (fun x => x.id ≠ cid) }) := by
        simp only [delete_comment, hfind, hpub]
        rw [if_neg hne]
      rw [hred]
      refine ⟨rfl, rfl, ?_, ?_, rfl⟩
      · intro r hr hrid
        exact List.mem_filter.mpr ⟨hr, by simpa using hrid⟩
      · intro pub2 hpub2
        injection hpub2 with hpp
        subst hpp
        have hpubid : pub.id = c.publication_id := by
          simpa using List.find?_some hpub
        have hid2 : ({ pub with comment_count := max 0 (pub.comment_count - 1) }
            : Publication).id = c.publication_id := hpubid
        unfold getPub
        exact find?_id_replace_pub db.publications c.publication_id _ pub hid2 hpub

/-- Witness for C9 at a concrete store: a top-level comment with one
reply, deleted by its author. -/
theorem delete_comment_author_only_frame_witness :
    (delete_comment
      ⟨[], [], [⟨1, 9, none, "t", none, .article, "tk", "p", "q", 0, 2, 10⟩],
        [], [⟨20, 1, 5, none, "top", 11⟩, ⟨21, 1, 6, some 20, "reply", 12⟩],
        []⟩ 20 5).2.comments = [⟨21, 1, 6, some 20, "reply", 12⟩] ∧
    (delete_comment
      ⟨[], [], [⟨1, 9, none, "t", none, .article, "tk", "p", "q", 0, 2, 10⟩],
        [], [⟨20, 1, 5, none, "top", 11⟩, ⟨21, 1, 6, some 20, "reply", 12⟩],
        []⟩ 20 5).2.publications
      = [⟨1, 9, none, "t", none, .article, "tk", "p", "q", 0, 1, 10⟩] := by
  have h := delete_comment_author_only_frame
    ⟨[], [], [⟨1, 9, none, "t", none, .article, "tk", "p", "q", 0, 2, 10⟩],
      [], [⟨20, 1, 5, none, "top", 11⟩, ⟨21, 1, 6, some 20, "reply", 12⟩],
      []⟩ 20 5 ⟨20, 1, 5, none, "top", 11⟩ (by decide)
  have h2 := (h.2 (by decide)).2.1
  refine ⟨by rw [h2]; decide, by decide⟩

/-- C10: deleting a comment whose publication row is gone still
succeeds, removes the comment, and silently skips the counter update. -/
theorem delete_comment_missing_publication_ok :
    ∀ (db : SocialDB) (cid uid : Id) (c : PublicationComment),
      db.comments.find? (fun x => x.id = cid) = some c →
      c.author_id = uid →
      getPub db c.publication_id = none →
      delete_comment db cid uid =
        (.ok (), { db with comments := db.comments.filter (fun x => x.id ≠ cid) }) := by
  intro db cid uid c hfind heq hpub
  have hne : ¬ c.author_id ≠ uid := by simp [heq]
  simp only [delete_comment, hfind, hpub]
  rw [if_neg hne]

/-- Witness for C10: the comment references publication 3 which has no
row. -/
theorem delete_comment_missing_publication_ok_witness :
    delete_comment
      ⟨[], [], [], [], [⟨20, 3, 5, none, "orphan", 11⟩], []⟩ 20 5 =
      (.ok (), ⟨[], [], [], [], [], []⟩) := by
  have h := delete_comment_missing_publication_ok
    ⟨[], [], [], [], [⟨20, 3, 5, none, "orphan", 11⟩], []⟩ 20 5
    ⟨20, 3, 5, none, "orphan", 11⟩ (by decide) (by decide) (by decide)
  rw [h]; decide

/-- Counterexample to C8 as stated: deleting publication 1, which has a
like row and a comment row, leaves both dependent rows in the store. -/
theorem delete_publication_keeps_dependent_rows :
    (delete_publication
      ⟨[], [], [⟨1, 9, none, "t", none, .article, "tk", "p", "q", 1, 1, 10⟩],
        [⟨50, 1, 5⟩], [⟨60, 1, 5, none, "c", 11⟩], []⟩ 1 9).1 = .ok () ∧
    (delete_publication
      ⟨[], [], [⟨1, 9, none, "t", none, .article, "tk", "p", "q", 1, 1, 10⟩],
        [⟨50, 1, 5⟩], [⟨60, 1, 5, none, "c", 11⟩], []⟩ 1 9).2.publications = [] ∧
    (delete_publication
      ⟨[], [], [⟨1, 9, none, "t", none, .article, "tk", "p", "q", 1, 1, 10⟩],
        [⟨50, 1, 5⟩], [⟨60, 1, 5, none, "c", 11⟩], []⟩ 1 9).2.likes
      = [⟨50, 1, 5⟩] ∧
    (delete_publication
      ⟨[], [], [⟨1, 9, none, "t", none, .article, "tk", "p", "q", 1, 1, 10⟩],
        [⟨50, 1, 5⟩], [⟨60, 1, 5, none, "c", 11⟩], []⟩ 1 9).2.comments
      = [⟨60, 1, 5, none, "c", 11⟩] := by decide

/-- C8 (amended): the author's deletePublication removes the stored
files that exist and then the publication row — a missing file does not
block the row deletion — and leaves like and comment rows untouched. -/
theorem delete_publication_files_then_row :
    ∀ (db : SocialDB) (pid uid : Id) (pub : Publication),
      getPub db pid = some pub →
      pub.author_id = uid →
      delete_publication db pid uid =
        (.ok (), { db with
          files := delete_publication_files db.files pub.id
          publications := db.publications.filter (fun p => p.id ≠ pid) }) := by
  intro db pid uid pub hpub hauthor
  have hne : ¬ pub.author_id ≠ uid := by simp [hauthor]
  simp only [delete_publication, hpub]
  rw [if_neg hne]

/-- Witness for the amended C8: the upload directory misses the
thumbnail and holds an unrelated file; deletion still succeeds. -/
theorem delete_publication_files_then_row_witness :
    delete_publication
      ⟨[], [], [⟨1, 9, none, "t", none, .article, "tk", "p", "q", 0, 0, 10⟩],
        [], [], ["uploads/publications/1.pdf", "other"]⟩ 1 9 =
      (.ok (), ⟨[], [], [], [], [], ["other"]⟩) := by
  have h := delete_publication_files_then_row
    ⟨[], [], [⟨1, 9, none, "t", none, .article, "tk", "p", "q", 0, 0, 10⟩],
      [], [], ["uploads/publications/1.pdf", "other"]⟩ 1 9
    ⟨1, 9, none, "t", none, .article, "tk", "p", "q", 0, 0, 10⟩
    (by decide) (by decide)
  rw [h]; decide

/-- Counterexample to C7 as stated: a parent comment living on a
different publication is rejected with the NotFound status 404, not
with the Validation status 400. -/
theorem cross_pub_parent_rejected_not_found :
    (create_comment
      ⟨[], [], [⟨1, 9, none, "a", none, .article, "tk", "p", "q", 0, 0, 10⟩,
        ⟨2, 9, none, "b", none, .article, "tj", "p", "q", 0, 0, 11⟩],
        [], [⟨10, 2, 5, none, "par", 12⟩], []⟩ 1 5 (some 10) "hi" 99 13).1
      = .error notFoundParent ∧
    notFoundParent.status = 404 ∧ ¬ notFoundParent.status = 400 := by decide

/-- C7 (amended): with the parent comment resolved, a cross-publication
parent is rejected as NotFound (404) and an over-depth parent as
Validation (400); in both cases the store — comment rows and counters —
is returned unchanged. -/
theorem create_comment_parent_rejections :
    ∀ (db : SocialDB) (pid uid par : Id) (content : String) (fid now : Id)
      (pub : Publication) (parent : PublicationComment),
      getPub db pid = some pub →
      db.comments.find? (fun x => x.id = par) = some parent →
      ((parent.publication_id ≠ pid →
        create_comment db pid uid (some par) content fid now
          = (.error notFoundParent, db) ∧ notFoundParent.status = 404)
      ∧ (parent.publication_id = pid → parent.parent_id ≠ none →
        create_comment db pid uid (some par) content fid now
          = (.error replyDepthErr, db) ∧ replyDepthErr.status = 400)) := by
  intro db pid uid par content fid now pub parent hpub hpar
  constructor
  · intro hcross
    simp only [create_comment, hpub, hpar]
    rw [if_pos hcross]
    exact ⟨rfl, rfl⟩
  · intro hsame hdepth
    have hns : ¬ parent.publication_id ≠ pid := by simp [hsame]
    simp only [create_comment, hpub, hpar]
    rw [if_neg hns, if_pos hdepth]
    exact ⟨rfl, rfl⟩

/-- Witness for the amended C7: reply to a reply on the same
publication is rejected with status 400 and the store unchanged. -/
theorem create_comment_parent_rejections_witness :
    (create_comment
      ⟨[], [], [⟨1, 9, none, "a", none, .article, "tk", "p", "q", 0, 2, 10⟩],
        [], [⟨10, 1, 5, none, "top", 11⟩, ⟨11, 1, 5, some 10, "reply", 12⟩],
        []⟩ 1 5 (some 11) "x" 99 13)
      = (.error replyDepthErr,
        ⟨[], [], [⟨1, 9, none, "a", none, .article, "tk", "p", "q", 0, 2, 10⟩],
          [], [⟨10, 1, 5, none, "top", 11⟩, ⟨11, 1, 5, some 10, "reply", 12⟩],
          []⟩) := by
  have h := (create_comment_parent_rejections
    ⟨[], [], [⟨1, 9, none, "a", none, .article, "tk", "p", "q", 0, 2, 10⟩],
      [], [⟨10, 1, 5, none, "top", 11⟩, ⟨11, 1, 5, some 10, "reply", 12⟩],
      []⟩ 1 5 11 "x" 99 13
    ⟨1, 9, none, "a", none, .article, "tk", "p", "q", 0, 2, 10⟩
    ⟨11, 1, 5, some 10, "reply", 12⟩ (by decide) (by decide)).2
    (by decide) (by decide)
  exact h.1

/-- Document analogue of `find?_id_replace_pub`. -/
theorem find?_id_replace_doc (l : List Document) (did : Id)
    (d q : Document) (hd : d.id = did)
    (hq : l.find? (fun x => x.id = did) = some q) :
    (l.map (fun x => if x.id = did then d else x)).find?
      (fun x => x.id = did) = some d := by
  induction l with
  | nil => simp at hq
  | cons a t ih =>
    by_cases ha : a.id = did
    · simp only [List.map_cons, if_pos ha]
      exact List.find?_cons_of_pos _ (by simp [hd])
    · simp only [List.map_cons, if_neg ha]
      rw [List.find?_cons_of_neg _ (by simp [ha])]
      rw [List.find?_cons_of_neg _ (by simp [ha])] at hq
      exact ih hq

/-- The token stored by the share endpoint: the existing one when
Python-truthy, otherwise the fresh `secrets.token_hex(16)` draw
(sharing.py lines 27-28). -/
def shareTok (d : Document) (fresh : String) : String :=
  if strFalsy d.share_token then fresh else d.share_token.getD fresh

/-- After replacing the row found by id with a public row carrying the
token, the share-token scan finds exactly that row, provided no other
row (by id) carries the token. -/
theorem find?_share_replace (l : List Document) (did : Id) (tok : String)
    (d d' : Document)
    (hfind : l.find? (fun x => x.id = did) = some d)
    (hno : ∀ o ∈ l, o.id ≠ did → o.share_token ≠ some tok)
    (htok : d'.share_token = some tok) (hpub : d'.is_public = true) :
    (l.map (fun x => if x.id = did then d' else x)).find?
      (fun x => x.share_token = some tok ∧ x.is_public = true) = some d' := by
  induction l with
  | nil => simp at hfind
  | cons a t ih =>
    by_cases ha : a.id = did
    · simp only [List.map_cons, if_pos ha]
      exact List.find?_cons_of_pos _ (by simp [htok, hpub])
    · simp only [List.map_cons, if_neg ha]
      rw [List.find?_cons_of_neg _
        (by simp [hno a (List.mem_cons_self a t) ha])]
      rw [List.find?_cons_of_neg _ (by simp [ha])] at hfind
      exact ih hfind (fun o ho hoid => hno o (List.mem_cons_of_mem a ho) hoid)

/-- C4: the gate resolves a document only when the token matches and
`is_public` holds in the same query; for every document — never shared
or already shared (where the existing token is reused) — sharing then
viewing with the returned token yields the shared document; revoking
then viewing with the old token yields NotFound (404). -/
theorem share_view_revoke_round_trip :
    (∀ (db : DocDB) (tok : String) (d : Document),
      view_shared db tok = .ok d →
      d.share_token = some tok ∧ d.is_public = true) ∧
    (∀ (d : Document) (fresh t : String),
      d.share_token = some t → t ≠ "" → shareTok d fresh = t) ∧
    (∀ (db : DocDB) (did uid : Id) (fresh : String) (d : Document),
      getDoc db did = some d → d.owner_id = uid →
      (∀ o ∈ db.docs, o.id ≠ did → o.share_token ≠ some (shareTok d fresh)) →
      (share_document db did uid fresh).1
        = .ok ⟨shareTok d fresh, "/shared/" ++ shareTok d fresh⟩ ∧
      view_shared (share_document db did uid fresh).2 (shareTok d fresh)
        = .ok { d with share_token := some (shareTok d fresh), is_public := true } ∧
      view_shared (revoke_share (share_document db did uid fresh).2 did uid).2
          (shareTok d fresh)
        = .error notFoundShared ∧ notFoundShared.status = 404) := by
  refine ⟨?_, ?_, ?_⟩
  · intro db tok d h
    unfold view_shared at h
    cases hfind : db.docs.find?
        (fun x => x.share_token = some tok ∧ x.is_public = true) with
    | none => rw [hfind] at h; cases h
    | some doc =>
      rw [hfind] at h
      injection h with hdd
      subst hdd
      have := List.find?_some hfind
      simpa using this
  · intro d fresh t ht hne
    simp [shareTok, strFalsy, ht, hne]
  · intro db did uid fresh d hfind howner hno
    have hdid : d.id = did := by simpa using List.find?_some hfind
    have hown' : ¬ d.owner_id ≠ uid := by simp [howner]
    have hr1 : share_document db did uid fresh =
        (.ok ⟨shareTok d fresh, "/shared/" ++ shareTok d fresh⟩,
         putDoc db did
           { d with share_token := some (shareTok d fresh), is_public := true }) := by
      simp only [share_document, hfind]
      rw [if_neg hown']
      rfl
    rw [hr1]
    refine ⟨rfl, ?_, ?_, rfl⟩
    · unfold view_shared putDoc
      rw [find?_share_replace db.docs did (shareTok d fresh) d _ hfind
        (fun o ho hoid => by simpa [hdid] using hno o ho hoid) rfl rfl]
    · have hget1 : getDoc (putDoc db did
          { d with share_token := some (shareTok d fresh), is_public := true }) did
          = some { d with share_token := some (shareTok d fresh), is_public := true } := by
        unfold getDoc putDoc
        exact find?_id_replace_doc db.docs did _ d hdid hfind
      have hr2 : revoke_share (putDoc db did
          { d with share_token := some (shareTok d fresh), is_public := true }) did uid =
          (.ok (), putDoc (putDoc db did
            { d with share_token := some (shareTok d fresh), is_public := true }) did
            { d with share_token := none, is_public := false }) := by
        simp only [revoke_share, hget1]
        rw [if_neg hown']
      rw [hr2]
      unfold view_shared
      have hnone2 : ((putDoc (putDoc db did
          { d with share_token := some (shareTok d fresh), is_public := true }) did
          { d with share_token := none, is_public := false }).docs).find?
          (fun x => x.share_token = some (shareTok d fresh) ∧ x.is_public = true)
          = none := by
        apply List.find?_eq_none.mpr
        intro z hz
        simp only [putDoc, List.map_map] at hz
        obtain ⟨y, hy, hzy⟩ := List.mem_map.mp hz
        simp only [Function.comp_apply] at hzy
        by_cases hyid : y.id = did
        · rw [if_pos hyid, if_pos hdid] at hzy
          subst hzy
          simp
        · rw [if_neg hyid, if_neg hyid] at hzy
          subst hzy
          simp [hno y hy hyid]
      rw [hnone2]

/-- Witness for C4 at concrete stores: once for an already-shared
document (token "ab" reused, the fresh draw "zz" discarded) and once
for a never-shared document (fresh token "cd" taken). -/
theorem share_view_revoke_round_trip_witness :
    (share_document (DocDB.mk [⟨1, 7, "T", Jdata.null, true, some "ab", none⟩])
        1 7 "zz").1 = .ok ⟨"ab", "/shared/ab"⟩ ∧
    view_shared (share_document
        (DocDB.mk [⟨1, 7, "T", Jdata.null, true, some "ab", none⟩]) 1 7 "zz").2 "ab"
      = .ok ⟨1, 7, "T", Jdata.null, true, some "ab", none⟩ ∧
    view_shared (revoke_share (share_document
        (DocDB.mk [⟨1, 7, "T", Jdata.null, true, some "ab", none⟩])
        1 7 "zz").2 1 7).2 "ab"
      = .error notFoundShared ∧
    view_shared (share_document
        (DocDB.mk [⟨2, 8, "U", Jdata.null, false, none, none⟩]) 2 8 "cd").2 "cd"
      = .ok ⟨2, 8, "U", Jdata.null, true, some "cd", none⟩ := by
  have h1 := share_view_revoke_round_trip.2.2
    (DocDB.mk [⟨1, 7, "T", Jdata.null, true, some "ab", none⟩]) 1 7 "zz"
    ⟨1, 7, "T", Jdata.null, true, some "ab", none⟩
    (by decide) (by decide) (by decide)
  have h2 := share_view_revoke_round_trip.2.2
    (DocDB.mk [⟨2, 8, "U", Jdata.null, false, none, none⟩]) 2 8 "cd"
    ⟨2, 8, "U", Jdata.null, false, none, none⟩
    (by decide) (by decide) (by decide)
  exact ⟨h1.1, h1.2.1, h1.2.2.1, h2.2.1⟩

/-- C5: copying a shared document produces a fresh private row owned by
the caller whose content equals the original content at copy time, with
`copied_from_id` pointing back; afterwards updating either row's
content leaves the other row unchanged (rows are values in the store). -/
theorem copy_shared_value_semantics :
    ∀ (db : DocDB) (tok : String) (uid fid : Id) (orig : Document),
      db.docs.find? (fun x => x.share_token = some tok ∧ x.is_public = true)
        = some orig →
      (∀ x ∈ db.docs, x.id ≠ fid) →
      ((copy_shared db tok uid fid).1 =
        .ok ⟨fid, uid, "Copy of " ++ orig.title, orig.content, false, none, some orig.id⟩
      ∧ (copy_shared db tok uid fid).2.docs =
          db.docs ++ [⟨fid, uid, "Copy of " ++ orig.title, orig.content,
            false, none, some orig.id⟩]
      ∧ (∀ newC,
          (update_document (copy_shared db tok uid fid).2 fid uid none (some newC)).1
            = .ok ⟨fid, uid, "Copy of " ++ orig.title, newC, false, none, some orig.id⟩
          ∧ (update_document (copy_shared db tok uid fid).2 fid uid none (some newC)).2.docs
            = db.docs ++ [⟨fid, uid, "Copy of " ++ orig.title, newC,
                false, none, some orig.id⟩])
      ∧ (∀ newC uid2,
          getDoc db orig.id = some orig → orig.owner_id = uid2 →
          (update_document (copy_shared db tok uid fid).2 orig.id uid2
              none (some newC)).2.docs
            = db.docs.map (fun x => if x.id = orig.id then
                { orig with content := newC } else x)
              ++ [⟨fid, uid, "Copy of " ++ orig.title, orig.content,
                false, none, some orig.id⟩])) := by
  intro db tok uid fid orig hfind hfid
  have hr : copy_shared db tok uid fid =
      (.ok ⟨fid, uid, "Copy of " ++ orig.title, orig.content, false, none, some orig.id⟩,
       ⟨db.docs ++ [⟨fid, uid, "Copy of " ++ orig.title, orig.content,
         false, none, some orig.id⟩]⟩) := by
    simp only [copy_shared, hfind]
  rw [hr]
  refine ⟨rfl, rfl, ?_, ?_⟩
  · intro newC
    have hnone : db.docs.find? (fun x => x.id = fid) = none :=
      List.find?_eq_none.mpr (fun x hx => by simpa using hfid x hx)
    have hget : getDoc (DocDB.mk (db.docs ++
        [⟨fid, uid, "Copy of " ++ orig.title, orig.content, false, none, some orig.id⟩]))
        fid = some ⟨fid, uid, "Copy of " ++ orig.title, orig.content,
          false, none, some orig.id⟩ := by
      unfold getDoc
      rw [List.find?_append, hnone]
      simp
    have hr2 : update_document (DocDB.mk (db.docs ++
        [⟨fid, uid, "Copy of " ++ orig.title, orig.content, false, none, some orig.id⟩]))
        fid uid none (some newC) =
        (.ok ⟨fid, uid, "Copy of " ++ orig.title, newC, false, none, some orig.id⟩,
         putDoc (DocDB.mk (db.docs ++
           [⟨fid, uid, "Copy of " ++ orig.title, orig.content, false, none, some orig.id⟩]))
           fid ⟨fid, uid, "Copy of " ++ orig.title, newC, false, none, some orig.id⟩) := by
      simp only [update_document, hget]
      rw [if_neg (by simp)]
      rfl
    rw [hr2]
    refine ⟨rfl, ?_⟩
    simp only [putDoc, List.map_append]
    have h1 : db.docs.map (fun x => if x.id = fid then
        (⟨fid, uid, "Copy of " ++ orig.title, newC, false, none, some orig.id⟩
          : Document) else x) = db.docs :=
      map_eq_self_of (fun x hx => if_neg (hfid x hx))
    rw [h1]
    simp
  · intro newC uid2 horig howner2
    have hcopyid : ((⟨fid, uid, "Copy of " ++ orig.title, orig.content,
        false, none, some orig.id⟩ : Document)).id ≠ orig.id := by
      have : orig.id ≠ fid := hfid orig (List.mem_of_find?_eq_some hfind)
      simpa using this.symm
    have hget2 : getDoc (DocDB.mk (db.docs ++
        [⟨fid, uid, "Copy of " ++ orig.title, orig.content, false, none, some orig.id⟩]))
        orig.id = some orig := by
      unfold getDoc
      rw [List.find?_append]
      unfold getDoc at horig
      rw [horig]
      rfl
    have hr2 : update_document (DocDB.mk (db.docs ++
        [⟨fid, uid, "Copy of " ++ orig.title, orig.content, false, none, some orig.id⟩]))
        orig.id uid2 none (some newC) =
        (.ok { orig with content := newC },
         putDoc (DocDB.mk (db.docs ++
           [⟨fid, uid, "Copy of " ++ orig.title, orig.content, false, none, some orig.id⟩]))
           orig.id { orig with content := newC }) := by
      simp only [update_document, hget2]
      rw [if_neg (by simp [howner2])]
      rfl
    rw [hr2]
    simp only [putDoc, List.map_append]
    congr 1
    simp only [List.map_cons, List.map_nil]
    rw [if_neg hcopyid]

/-- Witness for C5 at a concrete store. -/
theorem copy_shared_value_semantics_witness :
    (copy_shared (DocDB.mk [⟨1, 7, "T", Jdata.str "body", true, some "ab", none⟩])
        "ab" 8 2).2.docs
      = [⟨1, 7, "T", Jdata.str "body", true, some "ab", none⟩,
         ⟨2, 8, "Copy of T", Jdata.str "body", false, none, some 1⟩] ∧
    (update_document (copy_shared
        (DocDB.mk [⟨1, 7, "T", Jdata.str "body", true, some "ab", none⟩])
        "ab" 8 2).2 2 8 none (some (Jdata.str "edited"))).2.docs
      = [⟨1, 7, "T", Jdata.str "body", true, some "ab", none⟩,
         ⟨2, 8, "Copy of T", Jdata.str "edited", false, none, some 1⟩] := by
  have h := copy_shared_value_semantics
    (DocDB.mk [⟨1, 7, "T", Jdata.str "body", true, some "ab", none⟩]) "ab" 8 2
    ⟨1, 7, "T", Jdata.str "body", true, some "ab", none⟩ (by decide) (by decide)
  refine ⟨by rw [h.2.1]; decide, ?_⟩
  have h2 := (h.2.2.1 (Jdata.str "edited")).2
  rw [h2]
  decide

/-- C6: decoding is total and fail-closed — every malformed, tampered
or expired token yields the empty payload, never an exception — and a
token is accepted only when the signature verifies, `exp` is in the
future and the `type` claim matches the route kind: access-protected
dependencies reject refresh-typed tokens and the refresh route rejects
access-typed tokens. -/
theorem token_decode_fail_closed_and_kinds :
    (∀ (secret : String) (now : Nat) (t : Token),
      decode_token secret now t = emptyPayload ∨
      ∃ c, t = .signed c secret ∧ now < c.exp ∧
        decode_token secret now t = ⟨c.sub, c.type⟩) ∧
    (∀ (secret : String) (now : Nat) (users : List String) (t : Token)
        (uid : String),
      get_current_user secret now users t = .ok uid →
      ∃ c, t = .signed c secret ∧ now < c.exp ∧
        c.type = some "access" ∧ c.sub = some uid) ∧
    (∀ (secret : String) (now : Nat) (users : List String) (c : Claims)
        (s : String),
      c.type = some "refresh" →
      get_current_user secret now users (.signed c s) = .error invalidToken) ∧
    (∀ (secret : String) (now : Nat) (users : List String) (c : Claims)
        (s : String),
      c.type = some "access" →
      refresh secret now users (some (.signed c s)) = .error invalidRefresh) ∧
    (∀ (secret : String) (now : Nat) (users : List String) (t : Token)
        (out : Token),
      refresh secret now users (some t) = .ok out →
      ∃ c, t = .signed c secret ∧ now < c.exp ∧ c.type = some "refresh") := by
  refine ⟨?_, ?_, ?_, ?_, ?_⟩
  · intro secret now t
    cases t with
    | malformed raw => exact Or.inl rfl
    | signed c s =>
      by_cases hs : s = secret ∧ now < c.exp
      · exact Or.inr ⟨c, by rw [hs.1], hs.2, by simp [decode_token, hs]⟩
      · exact Or.inl (by simp only [decode_token, if_neg hs])
  · intro secret now users t uid h
    cases t with
    | malformed raw =>
      exfalso
      simp [get_current_user, decode_token, emptyPayload, subFalsy] at h
    | signed c s =>
      by_cases hs : s = secret ∧ now < c.exp
      · refine ⟨c, by rw [hs.1], hs.2, ?_⟩
        simp only [get_current_user, decode_token, if_pos hs] at h
        by_cases hcond : subFalsy c.sub = true ∨ c.type ≠ some "access"
        · rw [if_pos hcond] at h; cases h
        · push_neg at hcond
          obtain ⟨hsub, htype⟩ := hcond
          rw [if_neg (by push_neg; exact ⟨hsub, htype⟩)] at h
          refine ⟨htype, ?_⟩
          cases hcsub : c.sub with
          | none => rw [hcsub] at hsub; simp [subFalsy] at hsub
          | some u =>
            simp only [hcsub] at h
            by_cases hu : u ∈ users
            · rw [if_pos hu] at h
              injection h with huu
              rw [huu]
            · rw [if_neg hu] at h; cases h
      · exfalso
        simp [get_current_user, decode_token, if_neg hs, emptyPayload, subFalsy] at h
  · intro secret now users c s htype
    by_cases hs : s = secret ∧ now < c.exp
    · simp only [get_current_user, decode_token, if_pos hs]
      rw [if_pos (Or.inr (by simp [htype]))]
    · simp only [get_current_user, decode_token, if_neg hs]
      rw [if_pos (Or.inl (by simp [emptyPayload, subFalsy]))]
  · intro secret now users c s htype
    by_cases hs : s = secret ∧ now < c.exp
    · simp only [refresh, decode_token, if_pos hs]
      rw [if_pos (by simp [htype])]
    · simp only [refresh, decode_token, if_neg hs]
      rw [if_pos (by simp [emptyPayload])]
  · intro secret now users t out h
    cases t with
    | malformed raw =>
      exfalso
      simp [refresh, decode_token, emptyPayload] at h
    | signed c s =>
      by_cases hs : s = secret ∧ now < c.exp
      · refine ⟨c, by rw [hs.1], hs.2, ?_⟩
        simp only [refresh, decode_token, if_pos hs] at h
        by_cases htype : c.type = some "refresh"
        · exact htype
        · rw [if_pos (by simp [htype])] at h; cases h
      · exfalso
        simp [refresh, decode_token, if_neg hs, emptyPayload] at h

/-- Witness for C6: a freshly issued access token is accepted by the
access dependency and rejected by the refresh route. -/
theorem token_decode_fail_closed_and_kinds_witness :
    (∃ c, create_access_token "sec" "u1" 0 = .signed c "sec" ∧ 5 < c.exp ∧
      c.type = some "access" ∧ c.sub = some "u1") ∧
    refresh "sec" 5 ["u1"] (some (create_access_token "sec" "u1" 0))
      = .error invalidRefresh := by
  constructor
  · exact token_decode_fail_closed_and_kinds.2.1 "sec" 5 ["u1"]
      (create_access_token "sec" "u1" 0) "u1" (by decide)
  · exact token_decode_fail_closed_and_kinds.2.2.2.1 "sec" 5 ["u1"]
      ⟨some "u1", some "access", 900⟩ "sec" rfl

/-!  Sorting machinery for the pagination claims.  All lemmas are about
`insertionSortB`, the meaning given to ORDER BY; under the
pairwise-distinct-timestamp hypothesis the sorted list is unique, so
these results hold for the database's sort however implemented. -/

theorem perm_orderedInsertB {α : Type} (le : α → α → Bool) (a : α) :
    ∀ l : List α, List.Perm (orderedInsertB le a l) (a :: l)
  | [] => List.Perm.refl _
  | b :: t => by
    unfold orderedInsertB
    by_cases h : le a b
    · rw [if_pos h]
    · rw [if_neg h]
      exact ((perm_orderedInsertB le a t).cons b).trans (List.Perm.swap a b t)

theorem perm_insertionSortB {α : Type} (le : α → α → Bool) :
    ∀ l : List α, List.Perm (insertionSortB le l) l
  | [] => List.Perm.refl _
  | b :: t =>
    (perm_orderedInsertB le b _).trans ((perm_insertionSortB le t).cons b)

theorem pairwise_orderedInsertB {α : Type} (le : α → α → Bool)
    (htot : ∀ a b, le a b = true ∨ le b a = true)
    (htrans : ∀ a b c, le a b = true → le b c = true → le a c = true)
    (a : α) : ∀ (l : List α), l.Pairwise (fun x y => le x y = true) →
      (orderedInsertB le a l).Pairwise (fun x y => le x y = true)
  | [], _ => by simp [orderedInsertB]
  | b :: t, hp => by
    unfold orderedInsertB
    have hp' := List.pairwise_cons.mp hp
    by_cases h : le a b
    · rw [if_pos h]
      refine List.pairwise_cons.mpr ⟨?_, hp⟩
      intro x hx
      rcases List.mem_cons.mp hx with rfl | hx'
      · exact h
      · exact htrans a b x h (hp'.1 x hx')
    · rw [if_neg h]
      refine List.pairwise_cons.mpr
        ⟨?_, pairwise_orderedInsertB le htot htrans a t hp'.2⟩
      intro x hx
      have hx2 : x ∈ a :: t := (perm_orderedInsertB le a t).mem_iff.mp hx
      rcases List.mem_cons.mp hx2 with rfl | hx'
      · exact (htot x b).resolve_left h
      · exact hp'.1 x hx'

theorem pairwise_insertionSortB {α : Type} (le : α → α → Bool)
    (htot : ∀ a b, le a b = true ∨ le b a = true)
    (htrans : ∀ a b c, le a b = true → le b c = true → le a c = true) :
    ∀ l : List α,
      (insertionSortB le l).Pairwise (fun x y => le x y = true)
  | [] => List.Pairwise.nil
  | b :: t => pairwise_orderedInsertB le htot htrans b _
      (pairwise_insertionSortB le htot htrans t)

/-- Two permuted lists that are both pairwise-sorted by an asymmetric
relation coincide. -/
theorem eq_of_perm_of_pairwise_asymm {α : Type} {r : α → α → Prop}
    (hasymm : ∀ a b, r a b → r b a → False)
    {l₁ l₂ : List α} (hp : List.Perm l₁ l₂)
    (h1 : l₁.Pairwise r) (h2 : l₂.Pairwise r) : l₁ = l₂ := by
  haveI : IsAntisymm α r := ⟨fun a b ha hb => (hasymm a b ha hb).elim⟩
  exact List.eq_of_perm_of_sorted hp h1 h2

/-- On a strictly sorted list, keeping exactly the rows that come
strictly after the last element of `take n` is `drop n`: the cursor
taken from the last row of a page resumes exactly past the page. -/
theorem filter_strict_after_take {α : Type} (r : α → α → Prop)
    [DecidableRel r]
    (hirr : ∀ a, ¬ r a a) (hasymm : ∀ a b, r a b → r b a → False) :
    ∀ (l : List α) (n : Nat) (last : α), l.Pairwise r →
      (l.take n).getLast? = some last →
      l.filter (fun x => r last x) = l.drop n := by
  intro l
  induction l with
  | nil => intro n last _ h; simp at h
  | cons a t ih =>
    intro n last hp h
    have hp' := List.pairwise_cons.mp hp
    cases n with
    | zero => simp at h
    | succ m =>
      rw [List.take_succ_cons] at h
      by_cases htm : t.take m = []
      · rw [htm, List.getLast?_singleton] at h
        injection h with hl
        subst hl
        show (a :: t).filter (fun x => decide (r a x)) = t.drop m
        rw [List.filter_cons_of_neg (by simp [hirr a])]
        rcases List.take_eq_nil_iff.mp htm with hm | ht
        · subst hm
          exact List.filter_eq_self.mpr (fun x hx => by simp [hp'.1 x hx])
        · subst ht
          simp
      · obtain ⟨b, rest, hbr⟩ := List.exists_cons_of_ne_nil htm
        rw [hbr, List.getLast?_cons_cons, ← hbr] at h
        have hlast_t : last ∈ t :=
          List.mem_of_mem_take (List.mem_of_mem_getLast? h)
        have hral : r a last := hp'.1 last hlast_t
        show (a :: t).filter (fun x => decide (r last x)) = t.drop m
        rw [List.filter_cons_of_neg (by simp; exact fun hc => hasymm a last hral hc)]
        exact ih m last hp'.2 h

/-- `filter_strict_after_take` lifted to a page `take n (drop m l)` in
the middle of the sorted list. -/
theorem filter_strict_after {α : Type} (r : α → α → Prop) [DecidableRel r]
    (hirr : ∀ a, ¬ r a a) (hasymm : ∀ a b, r a b → r b a → False)
    (l : List α) (m n : Nat) (last : α)
    (hp : l.Pairwise r)
    (h : ((l.drop m).take n).getLast? = some last) :
    l.filter (fun x => r last x) = l.drop (m + n) := by
  have hdp : (l.drop m).Pairwise r := hp.sublist (List.drop_sublist m l)
  have hcore := filter_strict_after_take r hirr hasymm (l.drop m) n last hdp h
  have hlast : last ∈ l.drop m :=
    List.mem_of_mem_take (List.mem_of_mem_getLast? h)
  have hp2 : (l.take m ++ l.drop m).Pairwise r := by
    rw [List.take_append_drop]; exact hp
  have h1 : (l.take m).filter (fun x => r last x) = [] := by
    rw [List.filter_eq_nil_iff]
    intro x hx
    have hx2 : r x last := (List.pairwise_append.mp hp2).2.2 x hx last hlast
    simp only [decide_eq_true_eq]
    exact fun hc => hasymm x last hx2 hc
  conv_lhs => rw [← List.take_append_drop m l]
  rw [List.filter_append, h1, hcore, List.nil_append, List.drop_drop]

/-- A key-descending sorted list with pairwise distinct keys is
strictly descending. -/
theorem pairwise_lt_key_of_nodup {α : Type} (key : α → Nat) {l : List α}
    (hs : l.Pairwise (fun a b => key b ≤ key a))
    (hn : (l.map key).Nodup) :
    l.Pairwise (fun a b => key b < key a) := by
  have hne : l.Pairwise (fun a b => key a ≠ key b) := List.pairwise_map.mp hn
  exact (hs.and hne).imp (fun h => lt_of_le_of_ne h.1 (Ne.symm h.2))

/-- Ascending analogue. -/
theorem pairwise_gt_key_of_nodup {α : Type} (key : α → Nat) {l : List α}
    (hs : l.Pairwise (fun a b => key a ≤ key b))
    (hn : (l.map key).Nodup) :
    l.Pairwise (fun a b => key a < key b) := by
  have hne : l.Pairwise (fun a b => key a ≠ key b) := List.pairwise_map.mp hn
  exact (hs.and hne).imp (fun h => lt_of_le_of_ne h.1 h.2)

/-- Sorting after the WHERE filter equals filtering the sorted list,
when keys are pairwise distinct (SQL evaluates both the same way). -/
theorem sortB_filter_key_desc {α : Type} (key : α → Nat) (p : α → Bool)
    (l : List α) (hn : (l.map key).Nodup) :
    insertionSortB (fun a b => decide (key b ≤ key a)) (l.filter p)
      = (insertionSortB (fun a b => decide (key b ≤ key a)) l).filter p := by
  have htot : ∀ a b : α, decide (key b ≤ key a) = true ∨
      decide (key a ≤ key b) = true := by
    intro a b
    rcases le_total (key b) (key a) with h | h
    · exact Or.inl (by simpa using h)
    · exact Or.inr (by simpa using h)
  have htrans : ∀ a b c : α, decide (key b ≤ key a) = true →
      decide (key c ≤ key b) = true → decide (key c ≤ key a) = true := by
    intro a b c h1 h2
    simp only [decide_eq_true_eq] at h1 h2 ⊢
    exact le_trans h2 h1
  have hasymm : ∀ a b : α, key b < key a → key a < key b → False :=
    fun a b h1 h2 => absurd h1 (not_lt.mpr (le_of_lt h2))
  have hperm : List.Perm
      (insertionSortB (fun a b => decide (key b ≤ key a)) (l.filter p))
      ((insertionSortB (fun a b => decide (key b ≤ key a)) l).filter p) :=
    (perm_insertionSortB _ _).trans
      (((perm_insertionSortB _ l).filter p).symm)
  have hnfl : ((l.filter p).map key).Nodup :=
    ((List.filter_sublist l).map key).nodup hn
  have hsortl : (insertionSortB (fun a b => decide (key b ≤ key a)) l).Pairwise
      (fun a b => key b ≤ key a) :=
    (pairwise_insertionSortB _ htot htrans l).imp (fun h => by simpa using h)
  have hnsortl : ((insertionSortB (fun a b => decide (key b ≤ key a)) l).map key).Nodup :=
    (((perm_insertionSortB _ l).map key).nodup_iff).mpr hn
  apply eq_of_perm_of_pairwise_asymm hasymm hperm
  · apply pairwise_lt_key_of_nodup key
    · exact (pairwise_insertionSortB _ htot htrans (l.filter p)).imp
        (fun h => by simpa using h)
    · exact (((perm_insertionSortB _ (l.filter p)).map key).nodup_iff).mpr hnfl
  · exact (pairwise_lt_key_of_nodup key hsortl hnsortl).filter p

/-- Ascending analogue of `sortB_filter_key_desc`. -/
theorem sortB_filter_key_asc {α : Type} (key : α → Nat) (p : α → Bool)
    (l : List α) (hn : (l.map key).Nodup) :
    insertionSortB (fun a b => decide (key a ≤ key b)) (l.filter p)
      = (insertionSortB (fun a b => decide (key a ≤ key b)) l).filter p := by
  have htot : ∀ a b : α, decide (key a ≤ key b) = true ∨
      decide (key b ≤ key a) = true := by
    intro a b
    rcases le_total (key a) (key b) with h | h
    · exact Or.inl (by simpa using h)
    · exact Or.inr (by simpa using h)
  have htrans : ∀ a b c : α, decide (key a ≤ key b) = true →
      decide (key b ≤ key c) = true → decide (key a ≤ key c) = true := by
    intro a b c h1 h2
    simp only [decide_eq_true_eq] at h1 h2 ⊢
    exact le_trans h1 h2
  have hasymm : ∀ a b : α, key a < key b → key b < key a → False :=
    fun a b h1 h2 => absurd h1 (not_lt.mpr (le_of_lt h2))
  have hperm : List.Perm
      (insertionSortB (fun a b => decide (key a ≤ key b)) (l.filter p))
      ((insertionSortB (fun a b => decide (key a ≤ key b)) l).filter p) :=
    (perm_insertionSortB _ _).trans
      (((perm_insertionSortB _ l).filter p).symm)
  have hnfl : ((l.filter p).map key).Nodup :=
    ((List.filter_sublist l).map key).nodup hn
  have hsortl : (insertionSortB (fun a b => decide (key a ≤ key b)) l).Pairwise
      (fun a b => key a ≤ key b) :=
    (pairwise_insertionSortB _ htot htrans l).imp (fun h => by simpa using h)
  have hnsortl : ((insertionSortB (fun a b => decide (key a ≤ key b)) l).map key).Nodup :=
    (((perm_insertionSortB _ l).map key).nodup_iff).mpr hn
  apply eq_of_perm_of_pairwise_asymm hasymm hperm
  · apply pairwise_gt_key_of_nodup key
    · exact (pairwise_insertionSortB _ htot htrans (l.filter p)).imp
        (fun h => by simpa using h)
    · exact (((perm_insertionSortB _ (l.filter p)).map key).nodup_iff).mpr hnfl
  · exact (pairwise_gt_key_of_nodup key hsortl hnsortl).filter p

/-- Keys of a filterMap image form a sublist of the source keys. -/
theorem map_filterMap_sublist {α β γ : Type} (g : α → Option β)
    (k : β → γ) (kk : α → γ)
    (hg : ∀ a b, g a = some b → k b = kk a) :
    ∀ l : List α, ((l.filterMap g).map k).Sublist (l.map kk) := by
  intro l
  induction l with
  | nil => simp
  | cons a t ih =>
    cases hga : g a with
    | none =>
      rw [List.filterMap_cons_none hga]
      exact ih.cons (kk a)
    | some b =>
      rw [List.filterMap_cons_some hga]
      simp only [List.map_cons, hg a b hga]
      exact ih.cons₂ (kk a)

/-- The fully sorted feed row set (ORDER BY created_at DESC without
LIMIT): the reference line the pages walk along. -/
def feedSorted (db : SocialDB) (userId : Id) : List (Publication × String) :=
  insertionSortB pubDescLe (feedBase db userId)

/-- Ascending reference line for the comment listing. -/
def commentSorted (db : SocialDB) (pub_id : Id) :
    List (PublicationComment × String) :=
  insertionSortB commentAscLe (commentBase db pub_id)

/-- Whether the user has a like row for the publication, independent of
any page: what `liked_by_me` denotes for a row of any returned page. -/
def liked_by_me (db : SocialDB) (userId pid : Id) : Bool :=
  db.likes.any (fun l => l.user_id = userId ∧ l.publication_id = pid)

/-- The page-independent response for a feed row. -/
def feedResp (db : SocialDB) (userId : Id) (r : Publication × String) :
    PubResponse :=
  pub_response r.1 r.2 (liked_by_me db userId r.1.id)

/-- Iterated feed pagination: page 0 has no cursor, page k+1 uses the
`created_at` of the last row of page k as its cursor. -/
def feedPages (db : SocialDB) (userId : Id) (limit : Nat) :
    Nat → List PubResponse
  | 0 => feed db userId none limit
  | k+1 =>
    match (feedPages db userId limit k).getLast? with
    | none => []
    | some r => feed db userId (some r.created_at) limit

/-- Iterated comment pagination. -/
def commentPages (db : SocialDB) (pub_id : Id) (limit : Nat) :
    Nat → List CommentResponse
  | 0 => list_comments db pub_id none limit
  | k+1 =>
    match (commentPages db pub_id limit k).getLast? with
    | none => []
    | some r => list_comments db pub_id (some r.created_at) limit

/-- The fully sorted explore row set. -/
def exploreSorted (db : SocialDB) : List (Publication × String) :=
  insertionSortB pubDescLe (exploreBase db)

/-- Iterated explore pagination. -/
def explorePages (db : SocialDB) (userId : Id) (limit : Nat) :
    Nat → List PubResponse
  | 0 => explore db userId none limit
  | k+1 =>
    match (explorePages db userId limit k).getLast? with
    | none => []
    | some r => explore db userId (some r.created_at) limit

/-- Distinct publication timestamps make the feed row keys distinct. -/
theorem feedBase_keys_nodup (db : SocialDB) (userId : Id)
    (hn : (db.publications.map (fun p => p.created_at)).Nodup) :
    ((feedBase db userId).map (fun r => r.1.created_at)).Nodup := by
  have hsub := map_filterMap_sublist
    (fun p => (db.users.find? (fun u => u.id = p.author_id)).map
      (fun u => (p, u.name)))
    (fun r : Publication × String => r.1.created_at)
    (fun p : Publication => p.created_at)
    (by
      intro a b hab
      obtain ⟨u, _, hub⟩ := Option.map_eq_some'.mp hab
      rw [← hub])
    (db.publications.filter
      (fun p => p.author_id ∈ following_ids db userId))
  have hsub2 : ((db.publications.filter
      (fun p => p.author_id ∈ following_ids db userId)).map
        (fun p => p.created_at)).Sublist
      (db.publications.map (fun p => p.created_at)) :=
    (List.filter_sublist db.publications).map _
  exact (hsub.trans hsub2).nodup hn

/-- Distinct timestamps among the publication's comments make the
comment row keys distinct. -/
theorem commentBase_keys_nodup (db : SocialDB) (pub_id : Id)
    (hn : ((db.comments.filter (fun c => c.publication_id = pub_id)).map
      (fun c => c.created_at)).Nodup) :
    ((commentBase db pub_id).map (fun r => r.1.created_at)).Nodup := by
  have hsub := map_filterMap_sublist
    (fun c => (db.users.find? (fun u => u.id = c.author_id)).map
      (fun u => (c, u.name)))
    (fun r : PublicationComment × String => r.1.created_at)
    (fun c : PublicationComment => c.created_at)
    (by
      intro a b hab
      obtain ⟨u, _, hub⟩ := Option.map_eq_some'.mp hab
      rw [← hub])
    (db.comments.filter (fun c => c.publication_id = pub_id))
  exact hsub.nodup hn

/-- For a row of the returned page, membership of its id in the
page-restricted liked set coincides with the page-independent
`liked_by_me`. -/
theorem likedSet_mem_eq (db : SocialDB) (userId : Id)
    (rows : List (Publication × String)) (r : Publication × String)
    (hr : r ∈ rows) :
    decide (r.1.id ∈ likedSet db userId (rows.map (fun x => x.1.id)))
      = liked_by_me db userId r.1.id := by
  rw [Bool.eq_iff_iff]
  simp only [decide_eq_true_eq, likedSet, liked_by_me, List.any_eq_true,
    List.mem_map, List.mem_filter, decide_eq_true_eq]
  constructor
  · rintro ⟨l, ⟨hl, hu, _⟩, hpid⟩
    exact ⟨l, hl, hu, hpid⟩
  · rintro ⟨l, hl, hu, hpid⟩
    exact ⟨l, ⟨hl, hu, ⟨r, hr, hpid.symm⟩⟩, hpid⟩

/-- A feed call is the limit-prefix of the (cursor-filtered) sorted
feed row set, annotated row by row. -/
theorem feed_eq_chunk (db : SocialDB) (userId : Id)
    (hn : (db.publications.map (fun p => p.created_at)).Nodup) :
    (∀ L, feed db userId none L
      = ((feedSorted db userId).take L).map (feedResp db userId))
    ∧ (∀ c L, feed db userId (some c) L
      = (((feedSorted db userId).filter
          (fun r => r.1.created_at < c)).take L).map (feedResp db userId)) := by
  have hannot : ∀ rows : List (Publication × String),
      rows.map (fun r => pub_response r.1 r.2
        (r.1.id ∈ likedSet db userId (rows.map (fun x => x.1.id))))
      = rows.map (feedResp db userId) := by
    intro rows
    apply List.map_congr_left
    intro r hr
    rw [likedSet_mem_eq db userId rows r hr]
    rfl
  by_cases hemp : (following_ids db userId).isEmpty
  · have hfoll : following_ids db userId = [] := by
      simpa using hemp
    have hbase : feedBase db userId = [] := by
      unfold feedBase
      rw [hfoll]
      have h0 : db.publications.filter
          (fun p => decide (p.author_id ∈ ([] : List Id))) = [] := by
        simp
      rw [h0]
      rfl
    have hsorted : feedSorted db userId = [] := by
      unfold feedSorted
      rw [hbase]
      rfl
    constructor
    · intro L
      have h1 : feed db userId none L = [] := by
        unfold feed; rw [if_pos hemp]
      rw [h1, hsorted]
      simp
    · intro c L
      have h1 : feed db userId (some c) L = [] := by
        unfold feed; rw [if_pos hemp]
      rw [h1, hsorted]
      simp
  · constructor
    · intro L
      have h1 : feed db userId none L =
          ((insertionSortB pubDescLe (feedBase db userId)).take L).map
            (fun r => pub_response r.1 r.2
              (r.1.id ∈ likedSet db userId
                (((insertionSortB pubDescLe (feedBase db userId)).take L).map
                  (fun x => x.1.id)))) := by
        unfold feed; rw [if_neg hemp]
      rw [h1]
      exact hannot _
    · intro c L
      have h1 : feed db userId (some c) L =
          ((insertionSortB pubDescLe ((feedBase db userId).filter
              (fun r => r.1.created_at < c))).take L).map
            (fun r => pub_response r.1 r.2
              (r.1.id ∈ likedSet db userId
                (((insertionSortB pubDescLe ((feedBase db userId).filter
                    (fun r => r.1.created_at < c))).take L).map
                  (fun x => x.1.id)))) := by
        unfold feed; rw [if_neg hemp]
      rw [h1]
      have hle : pubDescLe = fun a b : Publication × String =>
          decide (b.1.created_at ≤ a.1.created_at) := rfl
      have hcomm := sortB_filter_key_desc
        (fun r : Publication × String => r.1.created_at)
        (fun r => decide (r.1.created_at < c))
        (feedBase db userId) (feedBase_keys_nodup db userId hn)
      rw [show (insertionSortB pubDescLe ((feedBase db userId).filter
          (fun r => r.1.created_at < c)))
          = (insertionSortB pubDescLe (feedBase db userId)).filter
            (fun r => r.1.created_at < c) from by rw [hle]; exact hcomm]
      exact hannot _

/-- A comment-list call is the limit-prefix of the (cursor-filtered)
ascending sorted comment row set. -/
theorem list_comments_eq_chunk (db : SocialDB) (pub_id : Id)
    (hn : ((db.comments.filter (fun c => c.publication_id = pub_id)).map
      (fun c => c.created_at)).Nodup) :
    (∀ L, list_comments db pub_id none L
      = ((commentSorted db pub_id).take L).map
          (fun r => comment_response r.1 r.2))
    ∧ (∀ c L, list_comments db pub_id (some c) L
      = (((commentSorted db pub_id).filter
          (fun r => c < r.1.created_at)).take L).map
          (fun r => comment_response r.1 r.2)) := by
  constructor
  · intro L
    rfl
  · intro c L
    have hle : commentAscLe = fun a b : PublicationComment × String =>
        decide (a.1.created_at ≤ b.1.created_at) := rfl
    have hcomm := sortB_filter_key_asc
      (fun r : PublicationComment × String => r.1.created_at)
      (fun r => decide (c < r.1.created_at))
      (commentBase db pub_id) (commentBase_keys_nodup db pub_id hn)
    have h1 : list_comments db pub_id (some c) L =
        ((insertionSortB commentAscLe ((commentBase db pub_id).filter
            (fun r => c < r.1.created_at))).take L).map
          (fun r => comment_response r.1 r.2) := rfl
    rw [h1]
    rw [show (insertionSortB commentAscLe ((commentBase db pub_id).filter
        (fun r => c < r.1.created_at)))
        = (insertionSortB commentAscLe (commentBase db pub_id)).filter
          (fun r => c < r.1.created_at) from by rw [hle]; exact hcomm]
    rfl

theorem pubDescLe_total : ∀ a b : Publication × String,
    pubDescLe a b = true ∨ pubDescLe b a = true := by
  intro a b
  unfold pubDescLe
  rcases le_total b.1.created_at a.1.created_at with h | h
  · exact Or.inl (by simpa using h)
  · exact Or.inr (by simpa using h)

theorem pubDescLe_trans : ∀ a b c : Publication × String,
    pubDescLe a b = true → pubDescLe b c = true → pubDescLe a c = true := by
  intro a b c h1 h2
  unfold pubDescLe at h1 h2 ⊢
  simp only [decide_eq_true_eq] at h1 h2 ⊢
  exact le_trans h2 h1

theorem commentAscLe_total : ∀ a b : PublicationComment × String,
    commentAscLe a b = true ∨ commentAscLe b a = true := by
  intro a b
  unfold commentAscLe
  rcases le_total a.1.created_at b.1.created_at with h | h
  · exact Or.inl (by simpa using h)
  · exact Or.inr (by simpa using h)

theorem commentAscLe_trans : ∀ a b c : PublicationComment × String,
    commentAscLe a b = true → commentAscLe b c = true →
    commentAscLe a c = true := by
  intro a b c h1 h2
  unfold commentAscLe at h1 h2 ⊢
  simp only [decide_eq_true_eq] at h1 h2 ⊢
  exact le_trans h1 h2

/-- With distinct timestamps the sorted feed line is strictly
descending. -/
theorem feedSorted_strict (db : SocialDB) (userId : Id)
    (hn : (db.publications.map (fun p => p.created_at)).Nodup) :
    (feedSorted db userId).Pairwise
      (fun a b => b.1.created_at < a.1.created_at) := by
  have hs : (feedSorted db userId).Pairwise
      (fun a b => b.1.created_at ≤ a.1.created_at) :=
    (pairwise_insertionSortB pubDescLe pubDescLe_total pubDescLe_trans
      (feedBase db userId)).imp (fun h => by simpa [pubDescLe] using h)
  have hnd : ((feedSorted db userId).map
      (fun r : Publication × String => r.1.created_at)).Nodup :=
    ((perm_insertionSortB pubDescLe (feedBase db userId)).map
      _).nodup_iff.mpr (feedBase_keys_nodup db userId hn)
  exact pairwise_lt_key_of_nodup
    (fun r : Publication × String => r.1.created_at) hs hnd

/-- With distinct timestamps the sorted comment line is strictly
ascending. -/
theorem commentSorted_strict (db : SocialDB) (pub_id : Id)
    (hn : ((db.comments.filter (fun c => c.publication_id = pub_id)).map
      (fun c => c.created_at)).Nodup) :
    (commentSorted db pub_id).Pairwise
      (fun a b => a.1.created_at < b.1.created_at) := by
  have hs : (commentSorted db pub_id).Pairwise
      (fun a b => a.1.created_at ≤ b.1.created_at) :=
    (pairwise_insertionSortB commentAscLe commentAscLe_total
      commentAscLe_trans (commentBase db pub_id)).imp
      (fun h => by simpa [commentAscLe] using h)
  have hnd : ((commentSorted db pub_id).map
      (fun r : PublicationComment × String => r.1.created_at)).Nodup :=
    ((perm_insertionSortB commentAscLe (commentBase db pub_id)).map
      _).nodup_iff.mpr (commentBase_keys_nodup db pub_id hn)
  exact pairwise_gt_key_of_nodup
    (fun r : PublicationComment × String => r.1.created_at) hs hnd

/-- Iterated feed pages are exactly the consecutive limit-sized blocks
of the sorted feed line: no row is repeated, none skipped. -/
theorem feedPages_eq_chunk (db : SocialDB) (userId : Id) (limit : Nat)
    (hn : (db.publications.map (fun p => p.created_at)).Nodup) :
    ∀ k, feedPages db userId limit k
      = (((feedSorted db userId).drop (k * limit)).take limit).map
          (feedResp db userId) := by
  have hchar := feed_eq_chunk db userId hn
  have hstrict := feedSorted_strict db userId hn
  intro k
  induction k with
  | zero =>
    rw [Nat.zero_mul, List.drop_zero]
    exact hchar.1 limit
  | succ k ih =>
    show (match (feedPages db userId limit k).getLast? with
      | none => []
      | some r => feed db userId (some r.created_at) limit)
      = _
    rw [ih]
    cases hcl : (((feedSorted db userId).drop (k * limit)).take limit).getLast? with
    | none =>
      have hchunk : ((feedSorted db userId).drop (k * limit)).take limit = [] := by
        simpa using hcl
      rw [hchunk]
      simp only [List.map_nil, List.getLast?_nil]
      rcases List.take_eq_nil_iff.mp hchunk with h0 | hdrop
      · subst h0
        simp
      · have hlen : (feedSorted db userId).length ≤ k * limit :=
          List.drop_eq_nil_iff.mp hdrop
        have hdrop2 : (feedSorted db userId).drop ((k + 1) * limit) = [] :=
          List.drop_eq_nil_iff.mpr
            (le_trans hlen (Nat.mul_le_mul_right _ (Nat.le_succ k)))
        rw [hdrop2]
        simp
    | some last =>
      have hld : ((((feedSorted db userId).drop (k * limit)).take limit).map
          (feedResp db userId)).getLast? = some (feedResp db userId last) := by
        rw [List.getLast?_map, hcl]
        rfl
      rw [hld]
      show feed db userId (some (feedResp db userId last).created_at) limit = _
      have hcreated : (feedResp db userId last).created_at = last.1.created_at := rfl
      rw [hcreated]
      rw [hchar.2 last.1.created_at limit]
      have hfilt := filter_strict_after
        (fun a b : Publication × String => b.1.created_at < a.1.created_at)
        (fun a => lt_irrefl _)
        (fun a b h1 h2 => absurd h1 (not_lt.mpr (le_of_lt h2)))
        (feedSorted db userId) (k * limit) limit last hstrict hcl
      rw [show ((feedSorted db userId).filter
          (fun r => r.1.created_at < last.1.created_at))
          = (feedSorted db userId).drop (k * limit + limit) from hfilt]
      rw [Nat.succ_mul]

/-- Iterated comment pages are exactly the consecutive blocks of the
ascending sorted comment line. -/
theorem commentPages_eq_chunk (db : SocialDB) (pub_id : Id) (limit : Nat)
    (hn : ((db.comments.filter (fun c => c.publication_id = pub_id)).map
      (fun c => c.created_at)).Nodup) :
    ∀ k, commentPages db pub_id limit k
      = (((commentSorted db pub_id).drop (k * limit)).take limit).map
          (fun r => comment_response r.1 r.2) := by
  have hchar := list_comments_eq_chunk db pub_id hn
  have hstrict := commentSorted_strict db pub_id hn
  intro k
  induction k with
  | zero =>
    rw [Nat.zero_mul, List.drop_zero]
    exact hchar.1 limit
  | succ k ih =>
    show (match (commentPages db pub_id limit k).getLast? with
      | none => []
      | some r => list_comments db pub_id (some r.created_at) limit)
      = _
    rw [ih]
    cases hcl : (((commentSorted db pub_id).drop (k * limit)).take limit).getLast? with
    | none =>
      have hchunk : ((commentSorted db pub_id).drop (k * limit)).take limit = [] := by
        simpa using hcl
      rw [hchunk]
      simp only [List.map_nil, List.getLast?_nil]
      rcases List.take_eq_nil_iff.mp hchunk with h0 | hdrop
      · subst h0
        simp
      · have hlen : (commentSorted db pub_id).length ≤ k * limit :=
          List.drop_eq_nil_iff.mp hdrop
        have hdrop2 : (commentSorted db pub_id).drop ((k + 1) * limit) = [] :=
          List.drop_eq_nil_iff.mpr
            (le_trans hlen (Nat.mul_le_mul_right _ (Nat.le_succ k)))
        rw [hdrop2]
        simp
    | some last =>
      have hld : ((((commentSorted db pub_id).drop (k * limit)).take limit).map
          (fun r => comment_response r.1 r.2)).getLast?
          = some (comment_response last.1 last.2) := by
        rw [List.getLast?_map, hcl]
        rfl
      rw [hld]
      show list_comments db pub_id
        (some (comment_response last.1 last.2).created_at) limit = _
      have hcreated : (comment_response last.1 last.2).created_at
          = last.1.created_at := rfl
      rw [hcreated]
      rw [hchar.2 last.1.created_at limit]
      have hfilt := filter_strict_after
        (fun a b : PublicationComment × String =>
          a.1.created_at < b.1.created_at)
        (fun a => lt_irrefl _)
        (fun a b h1 h2 => absurd h1 (not_lt.mpr (le_of_lt h2)))
        (commentSorted db pub_id) (k * limit) limit last hstrict hcl
      rw [show ((commentSorted db pub_id).filter
          (fun r => last.1.created_at < r.1.created_at))
          = (commentSorted db pub_id).drop (k * limit + limit) from hfilt]
      rw [Nat.succ_mul]

/-- Distinct publication timestamps make the explore row keys
distinct. -/
theorem exploreBase_keys_nodup (db : SocialDB)
    (hn : (db.publications.map (fun p => p.created_at)).Nodup) :
    ((exploreBase db).map (fun r => r.1.created_at)).Nodup := by
  have hsub := map_filterMap_sublist
    (fun p => (db.users.find? (fun u => u.id = p.author_id)).map
      (fun u => (p, u.name)))
    (fun r : Publication × String => r.1.created_at)
    (fun p : Publication => p.created_at)
    (by
      intro a b hab
      obtain ⟨u, _, hub⟩ := Option.map_eq_some'.mp hab
      rw [← hub])
    db.publications
  exact hsub.nodup hn

/-- An explore call is the limit-prefix of the (cursor-filtered) sorted
explore row set, annotated row by row. -/
theorem explore_eq_chunk (db : SocialDB) (userId : Id)
    (hn : (db.publications.map (fun p => p.created_at)).Nodup) :
    (∀ L, explore db userId none L
      = ((exploreSorted db).take L).map (feedResp db userId))
    ∧ (∀ c L, explore db userId (some c) L
      = (((exploreSorted db).filter
          (fun r => r.1.created_at < c)).take L).map (feedResp db userId)) := by
  have hannot : ∀ rows : List (Publication × String),
      rows.map (fun r => pub_response r.1 r.2
        (r.1.id ∈ likedSet db userId (rows.map (fun x => x.1.id))))
      = rows.map (feedResp db userId) := by
    intro rows
    apply List.map_congr_left
    intro r hr
    rw [likedSet_mem_eq db userId rows r hr]
    rfl
  constructor
  · intro L
    exact hannot _
  · intro c L
    have h1 : explore db userId (some c) L =
        ((insertionSortB pubDescLe ((exploreBase db).filter
            (fun r => r.1.created_at < c))).take L).map
          (fun r => pub_response r.1 r.2
            (r.1.id ∈ likedSet db userId
              (((insertionSortB pubDescLe ((exploreBase db).filter
                  (fun r => r.1.created_at < c))).take L).map
                (fun x => x.1.id)))) := rfl
    rw [h1]
    have hle : pubDescLe = fun a b : Publication × String =>
        decide (b.1.created_at ≤ a.1.created_at) := rfl
    have hcomm := sortB_filter_key_desc
      (fun r : Publication × String => r.1.created_at)
      (fun r => decide (r.1.created_at < c))
      (exploreBase db) (exploreBase_keys_nodup db hn)
    rw [show (insertionSortB pubDescLe ((exploreBase db).filter
        (fun r => r.1.created_at < c)))
        = (insertionSortB pubDescLe (exploreBase db)).filter
          (fun r => r.1.created_at < c) from by rw [hle]; exact hcomm]
    exact hannot _

/-- With distinct timestamps the sorted explore line is strictly
descending. -/
theorem exploreSorted_strict (db : SocialDB)
    (hn : (db.publications.map (fun p => p.created_at)).Nodup) :
    (exploreSorted db).Pairwise
      (fun a b => b.1.created_at < a.1.created_at) := by
  have hs : (exploreSorted db).Pairwise
      (fun a b => b.1.created_at ≤ a.1.created_at) :=
    (pairwise_insertionSortB pubDescLe pubDescLe_total pubDescLe_trans
      (exploreBase db)).imp (fun h => by simpa [pubDescLe] using h)
  have hnd : ((exploreSorted db).map
      (fun r : Publication × String => r.1.created_at)).Nodup :=
    ((perm_insertionSortB pubDescLe (exploreBase db)).map
      _).nodup_iff.mpr (exploreBase_keys_nodup db hn)
  exact pairwise_lt_key_of_nodup
    (fun r : Publication × String => r.1.created_at) hs hnd

/-- Iterated explore pages are exactly the consecutive limit-sized
blocks of the sorted explore line. -/
theorem explorePages_eq_chunk (db : SocialDB) (userId : Id) (limit : Nat)
    (hn : (db.publications.map (fun p => p.created_at)).Nodup) :
    ∀ k, explorePages db userId limit k
      = (((exploreSorted db).drop (k * limit)).take limit).map
          (feedResp db userId) := by
  have hchar := explore_eq_chunk db userId hn
  have hstrict := exploreSorted_strict db hn
  intro k
  induction k with
  | zero =>
    rw [Nat.zero_mul, List.drop_zero]
    exact hchar.1 limit
  | succ k ih =>
    show (match (explorePages db userId limit k).getLast? with
      | none => []
      | some r => explore db userId (some r.created_at) limit)
      = _
    rw [ih]
    cases hcl : (((exploreSorted db).drop (k * limit)).take limit).getLast? with
    | none =>
      have hchunk : ((exploreSorted db).drop (k * limit)).take limit = [] := by
        simpa using hcl
      rw [hchunk]
      simp only [List.map_nil, List.getLast?_nil]
      rcases List.take_eq_nil_iff.mp hchunk with h0 | hdrop
      · subst h0
        simp
      · have hlen : (exploreSorted db).length ≤ k * limit :=
          List.drop_eq_nil_iff.mp hdrop
        have hdrop2 : (exploreSorted db).drop ((k + 1) * limit) = [] :=
          List.drop_eq_nil_iff.mpr
            (le_trans hlen (Nat.mul_le_mul_right _ (Nat.le_succ k)))
        rw [hdrop2]
        simp
    | some last =>
      have hld : ((((exploreSorted db).drop (k * limit)).take limit).map
          (feedResp db userId)).getLast? = some (feedResp db userId last) := by
        rw [List.getLast?_map, hcl]
        rfl
      rw [hld]
      show explore db userId (some (feedResp db userId last).created_at) limit = _
      have hcreated : (feedResp db userId last).created_at = last.1.created_at := rfl
      rw [hcreated]
      rw [hchar.2 last.1.created_at limit]
      have hfilt := filter_strict_after
        (fun a b : Publication × String => b.1.created_at < a.1.created_at)
        (fun a => lt_irrefl _)
        (fun a b h1 h2 => absurd h1 (not_lt.mpr (le_of_lt h2)))
        (exploreSorted db) (k * limit) limit last hstrict hcl
      rw [show ((exploreSorted db).filter
          (fun r => r.1.created_at < last.1.created_at))
          = (exploreSorted db).drop (k * limit + limit) from hfilt]
      rw [Nat.succ_mul]

/-- C3: feed and explore pages are ordered descending by `created_at`
with the cursor a strict upper bound, comment pages ascending with the
cursor a strict lower bound; and with pairwise-distinct timestamps the
iterated pages of all three endpoints (cursor taken from the last row
of the previous page) are exactly the consecutive limit-sized blocks
of the fixed sorted row set — no row is ever repeated or skipped. -/
theorem pagination_cursor_chunks :
    (∀ (db : SocialDB) (userId : Id) (c limit : Nat),
      ∀ r ∈ feed db userId (some c) limit, r.created_at < c) ∧
    (∀ (db : SocialDB) (userId : Id) (cursor : Option Nat) (limit : Nat),
      (feed db userId cursor limit).Pairwise
        (fun a b => b.created_at ≤ a.created_at)) ∧
    (∀ (db : SocialDB) (userId : Id) (c limit : Nat),
      ∀ r ∈ explore db userId (some c) limit, r.created_at < c) ∧
    (∀ (db : SocialDB) (userId : Id) (cursor : Option Nat) (limit : Nat),
      (explore db userId cursor limit).Pairwise
        (fun a b => b.created_at ≤ a.created_at)) ∧
    (∀ (db : SocialDB) (pub_id : Id) (c limit : Nat),
      ∀ r ∈ list_comments db pub_id (some c) limit, c < r.created_at) ∧
    (∀ (db : SocialDB) (pub_id : Id) (cursor : Option Nat) (limit : Nat),
      (list_comments db pub_id cursor limit).Pairwise
        (fun a b => a.created_at ≤ b.created_at)) ∧
    (∀ (db : SocialDB) (userId : Id) (limit : Nat),
      (db.publications.map (fun p => p.created_at)).Nodup →
      ∀ k, feedPages db userId limit k
        = (((feedSorted db userId).drop (k * limit)).take limit).map
            (feedResp db userId)) ∧
    (∀ (db : SocialDB) (userId : Id) (limit : Nat),
      (db.publications.map (fun p => p.created_at)).Nodup →
      ∀ k, explorePages db userId limit k
        = (((exploreSorted db).drop (k * limit)).take limit).map
            (feedResp db userId)) ∧
    (∀ (db : SocialDB) (pub_id : Id) (limit : Nat),
      ((db.comments.filter (fun c => c.publication_id = pub_id)).map
        (fun c => c.created_at)).Nodup →
      ∀ k, commentPages db pub_id limit k
        = (((commentSorted db pub_id).drop (k * limit)).take limit).map
            (fun r => comment_response r.1 r.2)) := by
  refine ⟨?_, ?_, ?_, ?_, ?_, ?_, ?_, ?_, ?_⟩
  · intro db userId c limit r hr
    unfold feed at hr
    by_cases hemp : (following_ids db userId).isEmpty
    · rw [if_pos hemp] at hr
      simp at hr
    · rw [if_neg hemp] at hr
      obtain ⟨row, hrow, hfr⟩ := List.mem_map.mp hr
      have h1 : row ∈ insertionSortB pubDescLe
          ((feedBase db userId).filter (fun x => x.1.created_at < c)) :=
        List.mem_of_mem_take hrow
      have h2 : row ∈ (feedBase db userId).filter
          (fun x => x.1.created_at < c) :=
        (perm_insertionSortB _ _).mem_iff.mp h1
      have h3 := (List.mem_filter.mp h2).2
      rw [← hfr]
      simpa [pub_response] using h3
  · intro db userId cursor limit
    unfold feed
    by_cases hemp : (following_ids db userId).isEmpty
    · rw [if_pos hemp]
      exact List.Pairwise.nil
    · rw [if_neg hemp]
      apply List.pairwise_map.mpr
      have hs : ∀ l : List (Publication × String),
          ((insertionSortB pubDescLe l).take limit).Pairwise
            (fun a b => b.1.created_at ≤ a.1.created_at) := by
        intro l
        exact ((pairwise_insertionSortB pubDescLe pubDescLe_total
          pubDescLe_trans l).imp
          (fun h => by simpa [pubDescLe] using h)).sublist
          (List.take_sublist _ _)
      exact (hs _).imp (fun h => h)
  · intro db userId c limit r hr
    unfold explore at hr
    obtain ⟨row, hrow, hfr⟩ := List.mem_map.mp hr
    have h1 : row ∈ insertionSortB pubDescLe
        ((exploreBase db).filter (fun x => x.1.created_at < c)) :=
      List.mem_of_mem_take hrow
    have h2 : row ∈ (exploreBase db).filter
        (fun x => x.1.created_at < c) :=
      (perm_insertionSortB _ _).mem_iff.mp h1
    have h3 := (List.mem_filter.mp h2).2
    rw [← hfr]
    simpa [pub_response] using h3
  · intro db userId cursor limit
    unfold explore
    apply List.pairwise_map.mpr
    have hs : ∀ l : List (Publication × String),
        ((insertionSortB pubDescLe l).take limit).Pairwise
          (fun a b => b.1.created_at ≤ a.1.created_at) := by
      intro l
      exact ((pairwise_insertionSortB pubDescLe pubDescLe_total
        pubDescLe_trans l).imp
        (fun h => by simpa [pubDescLe] using h)).sublist
        (List.take_sublist _ _)
    exact (hs _).imp (fun h => h)
  · intro db pub_id c limit r hr
    unfold list_comments at hr
    obtain ⟨row, hrow, hfr⟩ := List.mem_map.mp hr
    have h1 : row ∈ insertionSortB commentAscLe
        ((commentBase db pub_id).filter (fun x => c < x.1.created_at)) :=
      List.mem_of_mem_take hrow
    have h2 : row ∈ (commentBase db pub_id).filter
        (fun x => c < x.1.created_at) :=
      (perm_insertionSortB _ _).mem_iff.mp h1
    have h3 := (List.mem_filter.mp h2).2
    rw [← hfr]
    simpa [comment_response] using h3
  · intro db pub_id cursor limit
    unfold list_comments
    apply List.pairwise_map.mpr
    have hs : ∀ l : List (PublicationComment × String),
        ((insertionSortB commentAscLe l).take limit).Pairwise
          (fun a b => a.1.created_at ≤ b.1.created_at) := by
      intro l
      exact ((pairwise_insertionSortB commentAscLe commentAscLe_total
        commentAscLe_trans l).imp
        (fun h => by simpa [commentAscLe] using h)).sublist
        (List.take_sublist _ _)
    exact (hs _).imp (fun h => h)
  · intro db userId limit hn
    exact feedPages_eq_chunk db userId limit hn
  · intro db userId limit hn
    exact explorePages_eq_chunk db userId limit hn
  · intro db pub_id limit hn
    exact commentPages_eq_chunk db pub_id limit hn

/-- Witness for C3: three publications by a followed author with
timestamps 30, 20, 10, page size 2; feed and explore page 0 is
[30,20], page 1 is [10], page 2 is empty. -/
theorem pagination_cursor_chunks_witness :
    (([⟨1, 9, none, "a", none, .article, "t1", "p", "q", 0, 0, 10⟩,
       ⟨2, 9, none, "b", none, .article, "t2", "p", "q", 0, 0, 20⟩,
       ⟨3, 9, none, "c", none, .article, "t3", "p", "q", 0, 0, 30⟩]
        : List Publication).map (fun p => p.created_at)).Nodup ∧
    feedPages
      ⟨[⟨9, "A"⟩], [⟨1, 5, 9⟩],
       [⟨1, 9, none, "a", none, .article, "t1", "p", "q", 0, 0, 10⟩,
        ⟨2, 9, none, "b", none, .article, "t2", "p", "q", 0, 0, 20⟩,
        ⟨3, 9, none, "c", none, .article, "t3", "p", "q", 0, 0, 30⟩],
       [], [], []⟩ 5 2 0
      = [⟨3, 9, "A", none, "c", none, .article, "t3", 0, 0, 30, false⟩,
         ⟨2, 9, "A", none, "b", none, .article, "t2", 0, 0, 20, false⟩] ∧
    feedPages
      ⟨[⟨9, "A"⟩], [⟨1, 5, 9⟩],
       [⟨1, 9, none, "a", none, .article, "t1", "p", "q", 0, 0, 10⟩,
        ⟨2, 9, none, "b", none, .article, "t2", "p", "q", 0, 0, 20⟩,
        ⟨3, 9, none, "c", none, .article, "t3", "p", "q", 0, 0, 30⟩],
       [], [], []⟩ 5 2 1
      = [⟨1, 9, "A", none, "a", none, .article, "t1", 0, 0, 10, false⟩] ∧
    feedPages
      ⟨[⟨9, "A"⟩], [⟨1, 5, 9⟩],
       [⟨1, 9, none, "a", none, .article, "t1", "p", "q", 0, 0, 10⟩,
        ⟨2, 9, none, "b", none, .article, "t2", "p", "q", 0, 0, 20⟩,
        ⟨3, 9, none, "c", none, .article, "t3", "p", "q", 0, 0, 30⟩],
       [], [], []⟩ 5 2 2
      = [] ∧
    explorePages
      ⟨[⟨9, "A"⟩], [⟨1, 5, 9⟩],
       [⟨1, 9, none, "a", none, .article, "t1", "p", "q", 0, 0, 10⟩,
        ⟨2, 9, none, "b", none, .article, "t2", "p", "q", 0, 0, 20⟩,
        ⟨3, 9, none, "c", none, .article, "t3", "p", "q", 0, 0, 30⟩],
       [], [], []⟩ 5 2 0
      = [⟨3, 9, "A", none, "c", none, .article, "t3", 0, 0, 30, false⟩,
         ⟨2, 9, "A", none, "b", none, .article, "t2", 0, 0, 20, false⟩] ∧
    explorePages
      ⟨[⟨9, "A"⟩], [⟨1, 5, 9⟩],
       [⟨1, 9, none, "a", none, .article, "t1", "p", "q", 0, 0, 10⟩,
        ⟨2, 9, none, "b", none, .article, "t2", "p", "q", 0, 0, 20⟩,
        ⟨3, 9, none, "c", none, .article, "t3", "p", "q", 0, 0, 30⟩],
       [], [], []⟩ 5 2 1
      = [⟨1, 9, "A", none, "a", none, .article, "t1", 0, 0, 10, false⟩] := by
  have h := pagination_cursor_chunks.2.2.2.2.2.2.1
    ⟨[⟨9, "A"⟩], [⟨1, 5, 9⟩],
     [⟨1, 9, none, "a", none, .article, "t1", "p", "q", 0, 0, 10⟩,
      ⟨2, 9, none, "b", none, .article, "t2", "p", "q", 0, 0, 20⟩,
      ⟨3, 9, none, "c", none, .article, "t3", "p", "q", 0, 0, 30⟩],
     [], [], []⟩ 5 2 (by decide)
  have he := pagination_cursor_chunks.2.2.2.2.2.2.2.1
    ⟨[⟨9, "A"⟩], [⟨1, 5, 9⟩],
     [⟨1, 9, none, "a", none, .article, "t1", "p", "q", 0, 0, 10⟩,
      ⟨2, 9, none, "b", none, .article, "t2", "p", "q", 0, 0, 20⟩,
      ⟨3, 9, none, "c", none, .article, "t3", "p", "q", 0, 0, 30⟩],
     [], [], []⟩ 5 2 (by decide)
  refine ⟨by decide, ?_, ?_, ?_, ?_, ?_⟩
  · rw [h 0]; decide
  · rw [h 1]; decide
  · rw [h 2]; decide
  · rw [he 0]; decide
  · rw [he 1]; decide

end Violeta
